import Mathlib

/-!
# Pointproof: a shallow embedding of `lib.go`

The Go package `pointproof` (file `lib.go`) implements a pairing-based vector commitment
on top of the external library `cloudflare/circl/ecc/bls12381`.

Modelling conventions.

* The external library is a parameter: a scalar field `Scalar`, three groups `G1`, `G2`,
  `Gt` of which the program only uses the module structure over `Scalar`, and a record
  `Bls12381` with the generators, the pairing and the byte encodings.  The target
  group `Gt` is written additively: `Gt.Mul` is `+`, `Gt.Exp` is `•`, `Gt.SetIdentity`
  is `0`.  `G1.Add`, `G1.ScalarMult`, `G1.SetIdentity` are `+`, `•`, `0`, and likewise
  for `G2`; `Scalar.Mul`, `Scalar.Sub` are `*`, `-`.
* Go `int` values are `Int`; slices are `List`; a Go panic (explicit `panic`, an index
  out of range, `make` with a negative length) is `none`.  Lengths that would overflow
  a 64-bit `int` are not modelled: a slice that long cannot be allocated.
* `Setup` draws `alpha` from `rand.Reader`; here `alpha` is an explicit argument.
* A `hash.Hash` is the list of the bytes written to it so far; `Sum(nil)` hashes it.
-/

set_option linter.unusedSectionVars false

namespace Pointproof

/-- One byte of a Go `[]byte`. -/
abbrev Byte := Fin 256

/-- The part of `cloudflare/circl/ecc/bls12381` (and of `crypto/sha256`) that `lib.go`
calls, taken as a parameter.  The fields ending in a law are the documented contracts of
the library: the pairing is bilinear and `SetBytes` decodes what `Bytes` encodes. -/
structure Bls12381 (Scalar G1 G2 Gt : Type) [Field Scalar]
    [AddCommGroup G1] [Module Scalar G1] [AddCommGroup G2] [Module Scalar G2]
    [AddCommGroup Gt] [Module Scalar Gt] where
  /-- The result of `bls12381.G1Generator()`. -/
  G1Generator : G1
  /-- The result of `bls12381.G2Generator()`. -/
  G2Generator : G2
  /-- Go zero value of the struct type `bls12381.G1`: what an entry of
  `make([]bls12381.G1, n)` holds before it is assigned.  It only marks an unset entry: in
  the library the zero struct is not a point of the group and arithmetic on it is not
  modelled, so the theorems `C1` to `C20` state the value of an operation only where it
  does not read such an entry. -/
  G1Zero : G1
  /-- Go zero value of the struct type `bls12381.G2`, with the same proviso. -/
  G2Zero : G2
  /-- The pairing `bls12381.Pair`. -/
  Pair : G1 → G2 → Gt
  Pair_add_left : ∀ (a b : G1) (q : G2), Pair (a + b) q = Pair a q + Pair b q
  Pair_smul_left : ∀ (s : Scalar) (a : G1) (q : G2), Pair (s • a) q = s • Pair a q
  Pair_add_right : ∀ (a : G1) (p q : G2), Pair a (p + q) = Pair a p + Pair a q
  Pair_smul_right : ∀ (s : Scalar) (a : G1) (q : G2), Pair a (s • q) = s • Pair a q
  /-- The encoding `(*G1).Bytes`. -/
  G1Bytes : G1 → List Byte
  /-- The decoding `(*G1).SetBytes`, `none` when it returns an error. -/
  G1SetBytes : List Byte → Option G1
  G1SetBytes_Bytes : ∀ c : G1, G1SetBytes (G1Bytes c) = some c
  /-- The encoding `(*Scalar).MarshalBinary` (it never returns an error). -/
  ScalarMarshalBinary : Scalar → List Byte
  /-- The decoding `(*Scalar).SetBytes`: the bytes as a big-endian integer, reduced. -/
  ScalarSetBytes : List Byte → Scalar
  /-- The digest `sha256` of the bytes written to the hash. -/
  sha256 : List Byte → List Byte

/-- The struct `PP` of lib.go 15-19: `N int`, `P1 []bls12381.G1`, `P2 []bls12381.G2`. -/
structure PP (G1 G2 : Type) where
  N : Int
  P1 : List G1
  P2 : List G2

/-- Go slice indexing `l[i]` with an `int` index: `none` is the out-of-range panic. -/
def index? {α : Type} (l : List α) (i : Int) : Option α :=
  if i < 0 then none else l[i.toNat]?

/-- The bytes `binary.Write(w, binary.LittleEndian, int64(s))` writes: the eight bytes of the
two's-complement representation of `s`, least significant first. -/
def le64 (s : Int) : List Byte :=
  (List.range 8).map (fun k => Fin.ofNat ((s % 2 ^ 64).toNat / 256 ^ k % 256))

variable {Scalar G1 G2 Gt : Type} [Field Scalar]
  [AddCommGroup G1] [Module Scalar G1] [AddCommGroup G2] [Module Scalar G2]
  [AddCommGroup Gt] [Module Scalar Gt]

/-- Body of the first loop of `Setup` (lib.go 37-41) on the state `(p1, p2, t)`. -/
def Setup.step1 (L : Bls12381 Scalar G1 G2 Gt) (alpha : Scalar)
    (st : List G1 × List G2 × Scalar) (i : Nat) : List G1 × List G2 × Scalar :=
  (st.1.set i (st.2.2 • L.G1Generator), st.2.1.set i (st.2.2 • L.G2Generator),
    st.2.2 * alpha)

/-- Body of the second loop of `Setup` (lib.go 46-49) on the state `(p1, t)`. -/
def Setup.step2 (L : Bls12381 Scalar G1 G2 Gt) (alpha : Scalar)
    (st : List G1 × Scalar) (i : Nat) : List G1 × Scalar :=
  (st.1.set i (st.2 • L.G1Generator), st.2 * alpha)

/-- Embedding of `func Setup(N int) *Pointproof` (lib.go 22-54), with the random `alpha` as an
argument.  `make` panics on a negative length. -/
def Setup (L : Bls12381 Scalar G1 G2 Gt) (alpha : Scalar) (N : Int) : Option (PP G1 G2) :=
  if 2 * N < 0 ∨ N < 0 then none else
  let p1 := List.replicate (2 * N).toNat L.G1Zero
  let p2 := List.replicate N.toNat L.G2Zero
  let t := alpha
  -- for i := range N
  let st := (List.range N.toNat).foldl (Setup.step1 L alpha) (p1, p2, t)
  -- skip g^alpha^N+1
  let t := st.2.2 * alpha
  -- for i := N + 1; i < 2*N; i++
  let st2 := (List.range' (N.toNat + 1) (2 * N.toNat - (N.toNat + 1))).foldl
    (Setup.step2 L alpha) (st.1, t)
  some { N := N, P1 := st2.1, P2 := st.2.1 }

/-- Loop of `Commitment` (lib.go 62-66): `i` is the loop index, the list is
`message[i:]`, `c` the accumulator. -/
def Commitment.loop (pp : PP G1 G2) : Nat → List Scalar → G1 → Option G1
  | _, [], c => some c
  | i, m :: rest, c =>
    match pp.P1[i]? with
    | none => none
    | some p => Commitment.loop pp (i + 1) rest (c + m • p)

/-- Embedding of `func (pp *Pointproof) Commitment(message []bls12381.Scalar) *bls12381.G1`
(lib.go 57-68). -/
def Commitment (pp : PP G1 G2) (message : List Scalar) : Option G1 :=
  Commitment.loop pp 0 message 0

/-- Loop of `UpdateCommitment` (lib.go 81-87): `i` is the loop index, the list is
`sets[i:]`, `sum` the accumulator. -/
def UpdateCommitment.loop (pp : PP G1 G2) (originMessage nowMessage : List Scalar) :
    Nat → List Int → G1 → Option G1
  | _, [], sum => some sum
  | i, s :: rest, sum =>
    match nowMessage[i]?, originMessage[i]?, index? pp.P1 s with
    | some n, some o, some p =>
      UpdateCommitment.loop pp originMessage nowMessage (i + 1) rest (sum + (n - o) • p)
    | _, _, _ => none

/-- Embedding of `func (pp *Pointproof) UpdateCommitment(c, originMessage, nowMessage, sets)`
(lib.go 71-90).  The error of `SetBytes` is dropped by the code, in which case `ret`
keeps the zero value of `new(bls12381.G1)`. -/
def UpdateCommitment (L : Bls12381 Scalar G1 G2 Gt) (pp : PP G1 G2) (c : G1)
    (originMessage nowMessage : List Scalar) (sets : List Int) : Option G1 :=
  if originMessage.length ≠ nowMessage.length then none else
  let ret := (L.G1SetBytes (L.G1Bytes c)).getD L.G1Zero
  match UpdateCommitment.loop pp originMessage nowMessage 0 sets 0 with
  | none => none
  | some sum => some (ret + sum)

/-- Loop of `Proof` (lib.go 101-109): `j` is the loop index, the list is
`message[j:]`. -/
def Proof.loop (pp : PP G1 G2) (i : Int) : Nat → List Scalar → G1 → Option G1
  | _, [], sum => some sum
  | j, m :: rest, sum =>
    if (j : Int) = i then Proof.loop pp i (j + 1) rest sum
    else
      match index? pp.P1 (pp.N - i + j) with
      | none => none
      | some p => Proof.loop pp i (j + 1) rest (sum + m • p)

/-- Embedding of `func (pp *Pointproof) Proof(message []bls12381.Scalar, i int) *bls12381.G1`
(lib.go 93-111). -/
def Proof (pp : PP G1 G2) (message : List Scalar) (i : Int) : Option G1 :=
  if i < 0 ∨ i ≥ message.length then none else
  Proof.loop pp i 0 message 0

/-- The challenge `ti` for the slot with position `s`: lib.go 124-136 in `Aggregate`
and, with the same text, lib.go 162-174 in `Verify`. -/
def tiHash (L : Bls12381 Scalar G1 G2 Gt) (c : G1) (sets : List Int)
    (message : List Scalar) (s : Int) : Scalar :=
  -- tiHash := sha256.New()
  let h : List Byte := []
  let h := h ++ le64 s
  let h := h ++ L.G1Bytes c
  let h := sets.foldl (fun h s => h ++ le64 s) h
  let h := message.foldl (fun h m => h ++ L.ScalarMarshalBinary m) h
  L.ScalarSetBytes (L.sha256 h)

/-- Loop of `Aggregate` (lib.go 121-141): `i` is the loop index, the list is
`sets[i:]`. -/
def Aggregate.loop (L : Bls12381 Scalar G1 G2 Gt) (c : G1) (sets : List Int)
    (message : List Scalar) (proofs : List G1) : Nat → List Int → G1 → Option G1
  | _, [], sum => some sum
  | i, s :: rest, sum =>
    let ti := tiHash L c sets message s
    match proofs[i]? with
    | none => none
    | some p => Aggregate.loop L c sets message proofs (i + 1) rest (sum + ti • p)

/-- Embedding of `func (pp *Pointproof) Aggregate(c, sets, message, proofs) *bls12381.G1`
(lib.go 114-143).  The receiver is not used by the body.  The pointers in `proofs` are
taken to be non-nil. -/
def Aggregate (L : Bls12381 Scalar G1 G2 Gt) (c : G1) (sets : List Int)
    (message : List Scalar) (proofs : List G1) : Option G1 :=
  if sets.length ≠ proofs.length ∨ sets.length ≠ message.length then none else
  Aggregate.loop L c sets message proofs 0 sets 0

/-- Loop of `Verify` (lib.go 159-189) on the state `(g2Sum, right2)`: `i` is the loop
index, the list is `sets[i:]`. -/
def Verify.loop (L : Bls12381 Scalar G1 G2 Gt) (pp : PP G1 G2) (c : G1) (sets : List Int)
    (message : List Scalar) (gtAlphaNPlus1 : Gt) : Nat → List Int → G2 × Gt → Option (G2 × Gt)
  | _, [], st => some st
  | i, s :: rest, st =>
    let ti := tiHash L c sets message s
    match index? pp.P2 (pp.N - 1 - s), message[i]? with
    | some q, some m =>
      Verify.loop L pp c sets message gtAlphaNPlus1 (i + 1) rest
        (st.1 + ti • q, st.2 + (m * ti) • gtAlphaNPlus1)
    | _, _ => none

/-- Embedding of `func (pp *Pointproof) Verify(c, sets, message, proof) bool` (lib.go 146-197). -/
def Verify (L : Bls12381 Scalar G1 G2 Gt) [DecidableEq Gt] (pp : PP G1 G2) (c : G1)
    (sets : List Int) (message : List Scalar) (proof : G1) : Option Bool :=
  if sets.length ≠ message.length then none else
  match pp.P1[0]?, index? pp.P2 (pp.N - 1) with
  | some p, some q =>
    let gtAlphaNPlus1 := L.Pair p q
    match Verify.loop L pp c sets message gtAlphaNPlus1 0 sets (0, 0) with
    | none => none
    | some st =>
      let left := L.Pair c st.1
      let right1 := L.Pair proof L.G2Generator
      let right := right1 + st.2
      some (decide (left = right))
  | _, _ => none

/-! ## The closed forms the operations are compared with -/

/-- The `P1` sequence the data model describes: `alpha^(k+1) * g1` at every index `k`
of `[0, 2n)` except `n`, which holds the zero value. -/
def srsP1 (L : Bls12381 Scalar G1 G2 Gt) (alpha : Scalar) (n : Nat) : List G1 :=
  (List.range (2 * n)).map
    (fun k => if k = n then L.G1Zero else alpha ^ (k + 1) • L.G1Generator)

/-- The `P2` sequence the data model describes: `alpha^(k+1) * g2` for `k` in `[0, n)`. -/
def srsP2 (L : Bls12381 Scalar G1 G2 Gt) (alpha : Scalar) (n : Nat) : List G2 :=
  (List.range n).map (fun k => alpha ^ (k + 1) • L.G2Generator)

/-- The length constraints of the data model: `P1` has `2N` entries, `P2` has `N`. -/
def PP.WellFormed (pp : PP G1 G2) : Prop :=
  0 ≤ pp.N ∧ (pp.P1.length : Int) = 2 * pp.N ∧ (pp.P2.length : Int) = pp.N

/-! ## A small instance of the library

The prime field with 13 elements in the place of the scalar field, every group element
represented by its discrete logarithm to the generator and the pairing by the product of
the logarithms.  It is used to evaluate the operations on concrete inputs. -/

instance fact_prime_13 : Fact (Nat.Prime 13) := ⟨by norm_num⟩

/-- A one-byte digest standing for `sha256` in the small instance. -/
def toyDigest (bs : List Byte) : List Byte :=
  [Fin.ofNat (bs.foldl (fun acc b => (acc * 31 + b.val + 7) % 251) 1)]

/-- The small instance of the library. -/
def toy : Bls12381 (ZMod 13) (ZMod 13) (ZMod 13) (ZMod 13) where
  G1Generator := 1
  G2Generator := 1
  G1Zero := 0
  G2Zero := 0
  Pair := fun a q => a * q
  Pair_add_left := fun a b q => add_mul a b q
  Pair_smul_left := fun s a q => by simp [mul_assoc]
  Pair_add_right := fun a p q => mul_add a p q
  Pair_smul_right := fun s a q => by simp [mul_left_comm]
  G1Bytes := fun c => [Fin.ofNat c.val]
  G1SetBytes := fun bs =>
    match bs with
    | [b] => some (b.val : ZMod 13)
    | _ => none
  G1SetBytes_Bytes := by decide
  ScalarMarshalBinary := fun s => [Fin.ofNat s.val]
  ScalarSetBytes := fun bs => ((bs.foldl (fun acc b => acc * 256 + b.val) 0 : Nat) : ZMod 13)
  sha256 := toyDigest

/-- Parameters in the small instance: what `Setup` builds for `N = 2`, `alpha = 2`. -/
def toyPP : PP (ZMod 13) (ZMod 13) := { N := 2, P1 := [2, 4, 0, 3], P2 := [2, 4] }

/-- A message vector of length 2 in the small instance. -/
def toyVec : List (ZMod 13) := [5, 7]

/-- The challenge as the specification words it: the hash-to-scalar of
`LE64(s) ++ bytes(C) ++ LE64(positions[0]) ++ ... ++ bytes(values[k-1])`. -/
def challenge (L : Bls12381 Scalar G1 G2 Gt) (c : G1) (positions : List Int)
    (values : List Scalar) (s : Int) : Scalar :=
  L.ScalarSetBytes (L.sha256 (le64 s ++ L.G1Bytes c ++ (positions.map le64).flatten
    ++ (values.map L.ScalarMarshalBinary).flatten))

/-- The bytes written to the hash before `Sum(nil)` is taken: lib.go 124-133 in
`Aggregate` and, with the same text, lib.go 162-171 in `Verify`. -/
def tiInput (L : Bls12381 Scalar G1 G2 Gt) (c : G1) (sets : List Int)
    (message : List Scalar) (s : Int) : List Byte :=
  let h : List Byte := []
  let h := h ++ le64 s
  let h := h ++ L.G1Bytes c
  let h := sets.foldl (fun h s => h ++ le64 s) h
  let h := message.foldl (fun h m => h ++ L.ScalarMarshalBinary m) h
  h

/-- The indices at which the loop of `Proof` (lib.go 101-109) reads `pp.P1`, in order:
`pp.N-i+j` for every loop index `j` that is not skipped. -/
def Proof.reads (N : Int) (i : Int) : Nat → List Scalar → List Int
  | _, [] => []
  | j, _ :: rest =>
    if (j : Int) = i then Proof.reads N i (j + 1) rest
    else (N - i + j) :: Proof.reads N i (j + 1) rest

/-- Parameters in the small instance: what `Setup` builds for `N = 1`, `alpha = 2`. -/
def toyPP1 : PP (ZMod 13) (ZMod 13) := { N := 1, P1 := [2, 0], P2 := [2] }

/-- The range of a Go `int64`, which a position of type `int` always lies in. -/
def Int64Range (s : Int) : Prop := -2 ^ 63 ≤ s ∧ s < 2 ^ 63

/-! ## Setup -/

theorem getElem?_set_window {M : Type} (l : List M) (f : Nat → M) (a n k : Nat) :
    (if a + 1 ≤ k ∧ k < a + 1 + n ∧ k < l.length then some (f k) else (l.set a (f a))[k]?)
      = if a ≤ k ∧ k < a + (n + 1) ∧ k < l.length then some (f k) else l[k]? := by
  rw [List.getElem?_set]
  by_cases hk : a = k
  · subst hk
    by_cases hl : a < l.length
    · rw [if_neg (by omega), if_pos rfl, if_pos hl, if_pos (by omega)]
    · rw [if_neg (by omega), if_pos rfl, if_neg hl, if_neg (by omega)]
      exact (List.getElem?_eq_none (by omega)).symm
  · by_cases hc : a + 1 ≤ k ∧ k < a + 1 + n ∧ k < l.length
    · rw [if_pos hc, if_pos (by omega)]
    · rw [if_neg hc, if_neg hk, if_neg (by omega)]

theorem Setup_fold2_spec (L : Bls12381 Scalar G1 G2 Gt) (alpha : Scalar) :
    ∀ (n a : Nat) (p1 : List G1),
      ((List.range' a n).foldl (Setup.step2 L alpha) (p1, alpha ^ (a + 1))).2
          = alpha ^ (a + n + 1) ∧
      ((List.range' a n).foldl (Setup.step2 L alpha) (p1, alpha ^ (a + 1))).1.length
          = p1.length ∧
      ∀ k, ((List.range' a n).foldl (Setup.step2 L alpha) (p1, alpha ^ (a + 1))).1[k]? =
        if a ≤ k ∧ k < a + n ∧ k < p1.length then some (alpha ^ (k + 1) • L.G1Generator)
        else p1[k]? := by
  intro n
  induction n with
  | zero =>
    intro a p1
    refine ⟨by simp, by simp, fun k => ?_⟩
    rw [if_neg (by omega)]
    simp
  | succ n ih =>
    intro a p1
    have hstep : Setup.step2 L alpha (p1, alpha ^ (a + 1)) a
        = (p1.set a (alpha ^ (a + 1) • L.G1Generator), alpha ^ (a + 1 + 1)) := by
      simp [Setup.step2, pow_succ]
    rw [List.range'_succ, List.foldl_cons, hstep]
    obtain ⟨h1, h2, h3⟩ := ih (a + 1) (p1.set a (alpha ^ (a + 1) • L.G1Generator))
    refine ⟨by rw [h1]; congr 1; omega, by rw [h2]; simp, fun k => ?_⟩
    rw [h3 k, List.length_set]
    exact getElem?_set_window p1 (fun k => alpha ^ (k + 1) • L.G1Generator) a n k

theorem Setup_fold1_spec (L : Bls12381 Scalar G1 G2 Gt) (alpha : Scalar) :
    ∀ (n a : Nat) (p1 : List G1) (p2 : List G2),
      ((List.range' a n).foldl (Setup.step1 L alpha) (p1, p2, alpha ^ (a + 1))).2.2
          = alpha ^ (a + n + 1) ∧
      ((List.range' a n).foldl (Setup.step1 L alpha) (p1, p2, alpha ^ (a + 1))).1.length
          = p1.length ∧
      ((List.range' a n).foldl (Setup.step1 L alpha) (p1, p2, alpha ^ (a + 1))).2.1.length
          = p2.length ∧
      (∀ k, ((List.range' a n).foldl (Setup.step1 L alpha) (p1, p2, alpha ^ (a + 1))).1[k]? =
        if a ≤ k ∧ k < a + n ∧ k < p1.length then some (alpha ^ (k + 1) • L.G1Generator)
        else p1[k]?) ∧
      ∀ k, ((List.range' a n).foldl (Setup.step1 L alpha) (p1, p2, alpha ^ (a + 1))).2.1[k]? =
        if a ≤ k ∧ k < a + n ∧ k < p2.length then some (alpha ^ (k + 1) • L.G2Generator)
        else p2[k]? := by
  intro n
  induction n with
  | zero =>
    intro a p1 p2
    refine ⟨by simp, by simp, by simp, fun k => ?_, fun k => ?_⟩ <;>
    · rw [if_neg (by omega)]
      simp
  | succ n ih =>
    intro a p1 p2
    have hstep : Setup.step1 L alpha (p1, p2, alpha ^ (a + 1)) a
        = (p1.set a (alpha ^ (a + 1) • L.G1Generator),
           p2.set a (alpha ^ (a + 1) • L.G2Generator), alpha ^ (a + 1 + 1)) := by
      simp [Setup.step1, pow_succ]
    rw [List.range'_succ, List.foldl_cons, hstep]
    obtain ⟨h1, h2, h3, h4, h5⟩ := ih (a + 1) (p1.set a (alpha ^ (a + 1) • L.G1Generator))
      (p2.set a (alpha ^ (a + 1) • L.G2Generator))
    refine ⟨by rw [h1]; congr 1; omega, by rw [h2]; simp, by rw [h3]; simp,
      fun k => ?_, fun k => ?_⟩
    · rw [h4 k, List.length_set]
      exact getElem?_set_window p1 (fun k => alpha ^ (k + 1) • L.G1Generator) a n k
    · rw [h5 k, List.length_set]
      exact getElem?_set_window p2 (fun k => alpha ^ (k + 1) • L.G2Generator) a n k

/-- What `Setup` computes, in closed form: it fails on a negative `N` and otherwise
returns the sequences `srsP1` and `srsP2`. -/
theorem Setup_eq (L : Bls12381 Scalar G1 G2 Gt) (alpha : Scalar) (N : Int) :
    Setup L alpha N = if N < 0 then none else
      some { N := N, P1 := srsP1 L alpha N.toNat, P2 := srsP2 L alpha N.toNat } := by
  by_cases hN : N < 0
  · have : 2 * N < 0 ∨ N < 0 := Or.inr hN
    simp [Setup, hN]
  · have h2 : ¬ (2 * N < 0 ∨ N < 0) := by omega
    rw [if_neg hN]
    unfold Setup
    rw [if_neg h2]
    have e2 : (2 * N).toNat = 2 * N.toNat := by omega
    simp only [e2, List.range_eq_range']
    obtain ⟨h1, hl1, hl2, hp1, hp2⟩ := Setup_fold1_spec L alpha N.toNat 0
      (List.replicate (2 * N.toNat) L.G1Zero) (List.replicate N.toNat L.G2Zero)
    simp only [zero_add, pow_one, List.length_replicate] at h1 hl1 hl2 hp1 hp2
    rw [h1, ← pow_succ]
    obtain ⟨-, hm1, hq1⟩ := Setup_fold2_spec L alpha (2 * N.toNat - (N.toNat + 1)) (N.toNat + 1)
      ((List.range' 0 N.toNat).foldl (Setup.step1 L alpha)
        (List.replicate (2 * N.toNat) L.G1Zero, List.replicate N.toNat L.G2Zero, alpha)).1
    congr 1
    congr 1
    · apply List.ext_getElem?
      intro k
      rw [hq1 k, hp1 k, hl1]
      simp only [srsP1, List.length_replicate, List.getElem?_map, List.getElem?_replicate]
      by_cases c1 : k < N.toNat
      · rw [if_neg (by omega), if_pos (by omega), List.getElem?_range (by omega)]
        have hne : k ≠ N.toNat := by omega
        simp [hne]
      · by_cases c2 : k = N.toNat
        · by_cases c3 : N.toNat = 0
          · rw [if_neg (by omega), if_neg (by omega), if_neg (by omega)]
            rw [List.getElem?_eq_none (by simp; omega)]
            rfl
          · rw [if_neg (by omega), if_neg (by omega), if_pos (by omega),
              List.getElem?_range (by omega)]
            simp [c2]
        · by_cases c3 : k < 2 * N.toNat
          · rw [if_pos (by omega), List.getElem?_range (by omega)]
            simp [c2]
          · rw [if_neg (by omega), if_neg (by omega), if_neg (by omega)]
            rw [List.getElem?_eq_none (by simp; omega)]
            rfl
    · apply List.ext_getElem?
      intro k
      rw [hp2 k]
      simp only [srsP2, List.length_replicate, List.getElem?_map, List.getElem?_replicate]
      by_cases c1 : k < N.toNat
      · rw [if_pos (by omega), List.getElem?_range (by omega)]
        rfl
      · rw [if_neg (by omega), if_neg (by omega), List.getElem?_eq_none (by simp; omega)]
        rfl

theorem srsP1_length (L : Bls12381 Scalar G1 G2 Gt) (alpha : Scalar) (n : Nat) :
    (srsP1 L alpha n).length = 2 * n := by
  simp [srsP1]

theorem srsP2_length (L : Bls12381 Scalar G1 G2 Gt) (alpha : Scalar) (n : Nat) :
    (srsP2 L alpha n).length = n := by
  simp [srsP2]

theorem srsP1_getElem? (L : Bls12381 Scalar G1 G2 Gt) (alpha : Scalar) (n k : Nat)
    (hk : k < 2 * n) (hne : k ≠ n) :
    (srsP1 L alpha n)[k]? = some (alpha ^ (k + 1) • L.G1Generator) := by
  simp [srsP1, List.getElem?_range hk, hne]

theorem srsP1_hole (L : Bls12381 Scalar G1 G2 Gt) (alpha : Scalar) (n : Nat) (hn : 1 ≤ n) :
    (srsP1 L alpha n)[n]? = some L.G1Zero := by
  have hk : n < 2 * n := by omega
  simp [srsP1, List.getElem?_range hk]

theorem srsP2_getElem? (L : Bls12381 Scalar G1 G2 Gt) (alpha : Scalar) (n k : Nat)
    (hk : k < n) :
    (srsP2 L alpha n)[k]? = some (alpha ^ (k + 1) • L.G2Generator) := by
  simp [srsP2, List.getElem?_range hk]

/-- C4 (SRS power structure): for `N ≥ 1` and every trapdoor `alpha`, `Setup` returns
parameters whose field `N` is the argument, with `P1[k] = alpha^(k+1) * g1` for `k` in
`[0, N-1]` and in `[N+1, 2N-1]`, and `P2[k] = alpha^(k+1) * g2` for `k` in `[0, N-1]`. -/
theorem C4_Setup_power_structure (L : Bls12381 Scalar G1 G2 Gt) (alpha : Scalar) (N : Int)
    (hN : 1 ≤ N) :
    ∃ pp, Setup L alpha N = some pp ∧ pp.N = N ∧
      (∀ k : Nat, ((k : Int) ≤ N - 1 ∨ (N + 1 ≤ (k : Int) ∧ (k : Int) ≤ 2 * N - 1)) →
        pp.P1[k]? = some (alpha ^ (k + 1) • L.G1Generator)) ∧
      (∀ k : Nat, (k : Int) ≤ N - 1 →
        pp.P2[k]? = some (alpha ^ (k + 1) • L.G2Generator)) := by
  refine ⟨_, by rw [Setup_eq, if_neg (by omega)], rfl, fun k hk => ?_, fun k hk => ?_⟩
  · exact srsP1_getElem? L alpha N.toNat k (by omega) (by omega)
  · exact srsP2_getElem? L alpha N.toNat k (by omega)

/-- C4, at `N = 2` and `alpha = 2` in the small instance. -/
theorem C4_Setup_power_structure_witness :
    (1 : Int) ≤ 2 ∧
    ∃ pp, Setup toy (2 : ZMod 13) 2 = some pp ∧ pp.N = 2 ∧
      (∀ k : Nat, ((k : Int) ≤ 2 - 1 ∨ (2 + 1 ≤ (k : Int) ∧ (k : Int) ≤ 2 * 2 - 1)) →
        pp.P1[k]? = some ((2 : ZMod 13) ^ (k + 1) • toy.G1Generator)) ∧
      (∀ k : Nat, (k : Int) ≤ 2 - 1 →
        pp.P2[k]? = some ((2 : ZMod 13) ^ (k + 1) • toy.G2Generator)) :=
  ⟨by decide, C4_Setup_power_structure toy 2 2 (by decide)⟩

/-- C5 as stated fails: with `alpha = 1` and `N = 1` the element `alpha^(N+1) * g1` is
the generator itself, which `Setup` stores at index 0 of `P1`. -/
theorem C5_counterexample :
    ∃ pp, Setup toy (1 : ZMod 13) 1 = some pp ∧
      pp.P1[0]? = some ((1 : ZMod 13) ^ (1 + 1) • toy.G1Generator) := by
  refine ⟨_, by rw [Setup_eq, if_neg (by decide)], ?_⟩
  decide

/-- C5 amended (diagonal hole): for `N ≥ 1` and every `alpha`, `Setup` returns `P1` of
length `2N` and `P2` of length `N`, and the entry `P1[N]` is the zero value of the type,
whatever `alpha` is.  When `g1` is not the identity, `alpha` is not zero and no power
`alpha^j` with `1 ≤ j ≤ N` is one, the element `alpha^(N+1) * g1` is at no index
`k ≠ N` of `P1`. -/
theorem C5_Setup_diagonal_hole (L : Bls12381 Scalar G1 G2 Gt) (alpha : Scalar) (N : Int)
    (hN : 1 ≤ N) :
    ∃ pp, Setup L alpha N = some pp ∧
      (pp.P1.length : Int) = 2 * N ∧ (pp.P2.length : Int) = N ∧
      index? pp.P1 N = some L.G1Zero ∧
      (L.G1Generator ≠ 0 → alpha ≠ 0 → (∀ j : Nat, 1 ≤ j → (j : Int) ≤ N → alpha ^ j ≠ 1) →
        ∀ k : Nat, (k : Int) ≠ N → pp.P1[k]? ≠ some (alpha ^ (N.toNat + 1) • L.G1Generator)) := by
  refine ⟨_, by rw [Setup_eq, if_neg (by omega)], ?_, ?_, ?_, ?_⟩
  · simp only [srsP1_length]; omega
  · simp only [srsP2_length]; omega
  · simp only [index?]
    rw [if_neg (by omega)]
    exact srsP1_hole L alpha N.toNat (by omega)
  · intro hg ha hord k hk
    show (srsP1 L alpha N.toNat)[k]? ≠ _
    by_cases hlt : k < 2 * N.toNat
    · rw [srsP1_getElem? L alpha N.toNat k hlt (by omega)]
      intro heq
      have heq2 : (alpha ^ (k + 1) - alpha ^ (N.toNat + 1)) • L.G1Generator = 0 := by
        rw [sub_smul, Option.some.inj heq, sub_self]
      rcases smul_eq_zero.mp heq2 with h | h
      · rcases Nat.lt_or_gt_of_ne (show k ≠ N.toNat by omega) with hlt2 | hgt
        · -- alpha^(k+1) = alpha^(k+1) * alpha^(N-k)
          have e : alpha ^ (N.toNat + 1) = alpha ^ (k + 1) * alpha ^ (N.toNat - k) := by
            rw [← pow_add]; congr 1; omega
          rw [e] at h
          have h1 : alpha ^ (k + 1) * (1 - alpha ^ (N.toNat - k)) = 0 := by
            rw [mul_sub, mul_one]; exact h
          rcases mul_eq_zero.mp h1 with h2 | h2
          · exact pow_ne_zero _ ha h2
          · exact hord (N.toNat - k) (by omega) (by omega) (sub_eq_zero.mp h2).symm
        · have e : alpha ^ (k + 1) = alpha ^ (N.toNat + 1) * alpha ^ (k - N.toNat) := by
            rw [← pow_add]; congr 1; omega
          rw [e] at h
          have h1 : alpha ^ (N.toNat + 1) * (alpha ^ (k - N.toNat) - 1) = 0 := by
            rw [mul_sub, mul_one]; exact h
          rcases mul_eq_zero.mp h1 with h2 | h2
          · exact pow_ne_zero _ ha h2
          · exact hord (k - N.toNat) (by omega) (by omega) (sub_eq_zero.mp h2)
      · exact hg h
    · rw [List.getElem?_eq_none (by rw [srsP1_length]; omega)]
      exact fun h => Option.noConfusion h

/-- C5 amended, at `N = 2` and `alpha = 2` in the small instance, where the generator is
not the identity and neither `2` nor `2^2` is one. -/
theorem C5_Setup_diagonal_hole_witness :
    (1 : Int) ≤ 2 ∧ toy.G1Generator ≠ 0 ∧ (2 : ZMod 13) ≠ 0 ∧
    (∀ j : Nat, 1 ≤ j → (j : Int) ≤ 2 → (2 : ZMod 13) ^ j ≠ 1) ∧
    ∃ pp, Setup toy (2 : ZMod 13) 2 = some pp ∧
      (pp.P1.length : Int) = 2 * 2 ∧ (pp.P2.length : Int) = 2 ∧
      index? pp.P1 2 = some toy.G1Zero ∧
      (toy.G1Generator ≠ 0 → (2 : ZMod 13) ≠ 0 →
        (∀ j : Nat, 1 ≤ j → (j : Int) ≤ 2 → (2 : ZMod 13) ^ j ≠ 1) →
        ∀ k : Nat, (k : Int) ≠ 2 →
          pp.P1[k]? ≠ some ((2 : ZMod 13) ^ ((2 : Int).toNat + 1) • toy.G1Generator)) :=
  ⟨by decide, by decide, by decide,
    fun j h1 h2 => by
      have h3 : j ≤ 2 := by omega
      interval_cases j <;> decide,
    C5_Setup_diagonal_hole toy 2 2 (by decide)⟩

/-! ## Commitment -/

theorem getElem?_eq_some_getD {M : Type} (l : List M) (d : M) (k : Nat) (h : k < l.length) :
    l[k]? = some (l.getD k d) := by
  rw [List.getD_eq_getElem l d h, List.getElem?_eq_getElem h]

theorem index?_eq_some_getD {M : Type} (l : List M) (d : M) (i : Int) (h0 : 0 ≤ i)
    (h : i < l.length) : index? l i = some (l.getD i.toNat d) := by
  unfold index?
  rw [if_neg (by omega)]
  exact getElem?_eq_some_getD l d i.toNat (by omega)

theorem index?_eq_none_iff {M : Type} (l : List M) (i : Int) :
    index? l i = none ↔ i < 0 ∨ (l.length : Int) ≤ i := by
  unfold index?
  by_cases h : i < 0
  · simp [h]
  · rw [if_neg h, List.getElem?_eq_none_iff]
    omega

theorem Commitment_loop_spec (pp : PP G1 G2) :
    ∀ (ms : List Scalar) (i : Nat) (c : G1), i + ms.length ≤ pp.P1.length →
      Commitment.loop pp i ms c
        = some (c + ∑ t ∈ Finset.range ms.length, ms.getD t 0 • pp.P1.getD (i + t) 0) := by
  intro ms
  induction ms with
  | nil => intro i c _; simp [Commitment.loop]
  | cons m rest ih =>
    intro i c h
    have hlen : (m :: rest).length = rest.length + 1 := rfl
    rw [hlen] at h
    rw [Commitment.loop, getElem?_eq_some_getD pp.P1 0 i (by omega)]
    show Commitment.loop pp (i + 1) rest (c + m • pp.P1.getD i 0) = _
    rw [ih (i + 1) _ (by omega), hlen, Finset.sum_range_succ']
    simp only [List.getD_cons_succ, List.getD_cons_zero, Nat.add_zero]
    congr 1
    rw [add_assoc, add_comm (m • pp.P1.getD i 0)]
    congr 2
    apply Finset.sum_congr rfl
    intro t _
    congr 2
    omega

/-- What `Commitment` returns on a vector that fits in `P1`. -/
theorem Commitment_eq (pp : PP G1 G2) (message : List Scalar)
    (h : message.length ≤ pp.P1.length) :
    Commitment pp message
      = some (∑ j ∈ Finset.range message.length, message.getD j 0 • pp.P1.getD j 0) := by
  unfold Commitment
  rw [Commitment_loop_spec pp message 0 0 (by omega), zero_add]
  simp only [Nat.zero_add]

/-- C8 (commitment value): on well-formed parameters and a message vector of length
`m ≤ N`, `Commitment` returns `Σ_{j<m} values[j] * P1[j]`, which is the identity of
group 1 when `m = 0`. -/
theorem C8_Commitment_value (pp : PP G1 G2) (values : List Scalar)
    (hpp : pp.WellFormed) (hm : (values.length : Int) ≤ pp.N) :
    Commitment pp values
        = some (∑ j ∈ Finset.range values.length, values.getD j 0 • pp.P1.getD j 0) ∧
    (values.length = 0 → Commitment pp values = some 0) := by
  obtain ⟨h0, h1, h2⟩ := hpp
  have hle : values.length ≤ pp.P1.length := by omega
  refine ⟨Commitment_eq pp values hle, fun hz => ?_⟩
  rw [Commitment_eq pp values hle, hz, Finset.sum_range_zero]

/-! ## Proof -/

theorem Proof_loop_spec (pp : PP G1 G2) (i : Int) :
    ∀ (ms : List Scalar) (j : Nat) (sum : G1), 0 ≤ pp.N - i + j →
      pp.N - i + j + ms.length ≤ pp.P1.length →
      Proof.loop pp i j ms sum
        = some (sum + ∑ t ∈ Finset.range ms.length,
            if ((j + t : Nat) : Int) = i then 0
            else ms.getD t 0 • pp.P1.getD (pp.N - i + (j + t : Nat)).toNat 0) := by
  intro ms
  induction ms with
  | nil => intro j sum _ _; simp [Proof.loop]
  | cons m rest ih =>
    intro j sum h0 h1
    have hlen : (m :: rest).length = rest.length + 1 := rfl
    rw [hlen] at h1
    have hshift : ∀ t : Nat, j + 1 + t = j + (t + 1) := by intro t; omega
    rw [hlen, Finset.sum_range_succ']
    simp only [List.getD_cons_succ, List.getD_cons_zero, Nat.add_zero]
    rw [Proof.loop]
    by_cases hj : (j : Int) = i
    · rw [if_pos hj, if_pos hj, add_zero, ih (j + 1) sum (by push_cast; omega)
        (by push_cast; omega)]
      simp only [hshift]
    · rw [if_neg hj, if_neg hj,
        index?_eq_some_getD pp.P1 0 (pp.N - i + j) h0 (by push_cast at h1; omega)]
      show Proof.loop pp i (j + 1) rest _ = _
      rw [ih (j + 1) _ (by push_cast; omega) (by push_cast; omega)]
      simp only [hshift]
      congr 1
      rw [add_assoc, add_comm (m • _)]

/-- What `Proof` returns: a failure exactly on an index outside the vector, and the sum
of the shifted terms otherwise, provided the shifted indices fit in `P1`. -/
theorem Proof_eq (pp : PP G1 G2) (message : List Scalar) (i : Int)
    (hN : (message.length : Int) ≤ pp.N)
    (hP1 : pp.N + message.length ≤ (pp.P1.length : Int)) :
    Proof pp message i = if i < 0 ∨ (message.length : Int) ≤ i then none else
      some (∑ j ∈ (Finset.range message.length).filter (fun j : Nat => (j : Int) ≠ i),
        message.getD j 0 • pp.P1.getD (pp.N - i + j).toNat 0) := by
  unfold Proof
  by_cases hi : i < 0 ∨ (message.length : Int) ≤ i
  · rw [if_pos hi, if_pos (by omega)]
  · rw [if_neg hi, if_neg (by omega),
      Proof_loop_spec pp i message 0 0 (by push_cast; omega) (by push_cast; omega),
      zero_add, Finset.sum_filter]
    congr 1
    apply Finset.sum_congr rfl
    intro t _
    simp only [Nat.zero_add, ne_eq, ite_not]

/-- C9 (opening proof value and index check): on well-formed parameters and a message
vector of length `m ≤ N`, `Proof(values, i)` fails if and only if `i < 0` or `i ≥ m`, and
otherwise returns `Σ_{j<m, j≠i} values[j] * P1[N - i + j]`. -/
theorem C9_Proof_value (pp : PP G1 G2) (values : List Scalar) (i : Int)
    (hpp : pp.WellFormed) (hm : (values.length : Int) ≤ pp.N) :
    (Proof pp values i = none ↔ i < 0 ∨ (values.length : Int) ≤ i) ∧
    (¬ (i < 0 ∨ (values.length : Int) ≤ i) →
      Proof pp values i
        = some (∑ j ∈ (Finset.range values.length).filter (fun j : Nat => (j : Int) ≠ i),
            values.getD j 0 • pp.P1.getD (pp.N - i + j).toNat 0)) := by
  obtain ⟨h0, h1, h2⟩ := hpp
  have heq := Proof_eq pp values i hm (by omega)
  constructor
  · rw [heq]
    by_cases hi : i < 0 ∨ (values.length : Int) ≤ i
    · simp [hi]
    · simp [hi]
  · intro hi
    rw [heq, if_neg hi]

/-- C8, on the parameters and the vector of the small instance. -/
theorem C8_Commitment_value_witness :
    toyPP.WellFormed ∧ ((toyVec.length : Int) ≤ toyPP.N) ∧
    (Commitment toyPP toyVec
        = some (∑ j ∈ Finset.range toyVec.length, toyVec.getD j 0 • toyPP.P1.getD j 0) ∧
    (toyVec.length = 0 → Commitment toyPP toyVec = some 0)) :=
  ⟨⟨by decide, by decide, by decide⟩, by decide,
    C8_Commitment_value toyPP toyVec ⟨by decide, by decide, by decide⟩ (by decide)⟩

/-- C9, on the parameters and the vector of the small instance, at index 1. -/
theorem C9_Proof_value_witness :
    toyPP.WellFormed ∧ ((toyVec.length : Int) ≤ toyPP.N) ∧
    ¬ ((1 : Int) < 0 ∨ (toyVec.length : Int) ≤ 1) ∧
    ((Proof toyPP toyVec 1 = none ↔ (1 : Int) < 0 ∨ (toyVec.length : Int) ≤ 1) ∧
    (¬ ((1 : Int) < 0 ∨ (toyVec.length : Int) ≤ 1) →
      Proof toyPP toyVec 1
        = some (∑ j ∈ (Finset.range toyVec.length).filter (fun j : Nat => (j : Int) ≠ 1),
            toyVec.getD j 0 • toyPP.P1.getD (toyPP.N - 1 + j).toNat 0))) :=
  ⟨⟨by decide, by decide, by decide⟩, by decide, by decide,
    C9_Proof_value toyPP toyVec 1 ⟨by decide, by decide, by decide⟩ (by decide)⟩

/-! ## Aggregate -/

theorem foldl_append_eq_flatten {α : Type} (f : α → List Byte) :
    ∀ (l : List α) (init : List Byte),
      l.foldl (fun h a => h ++ f a) init = init ++ (l.map f).flatten := by
  intro l
  induction l with
  | nil => intro init; simp
  | cons a rest ih =>
    intro init
    rw [List.foldl_cons, ih, List.map_cons, List.flatten_cons, List.append_assoc]

/-- The bytes written to the hash by the code are the byte string of the specification. -/
theorem tiHash_eq_challenge (L : Bls12381 Scalar G1 G2 Gt) (c : G1) (sets : List Int)
    (message : List Scalar) (s : Int) :
    tiHash L c sets message s = challenge L c sets message s := by
  unfold tiHash challenge
  simp only [foldl_append_eq_flatten, List.nil_append]

theorem Aggregate_loop_spec (L : Bls12381 Scalar G1 G2 Gt) (c : G1) (sets : List Int)
    (message : List Scalar) (proofs : List G1) :
    ∀ (rest : List Int) (i : Nat) (sum : G1), i + rest.length ≤ proofs.length →
      Aggregate.loop L c sets message proofs i rest sum
        = some (sum + ∑ t ∈ Finset.range rest.length,
            tiHash L c sets message (rest.getD t 0) • proofs.getD (i + t) 0) := by
  intro rest
  induction rest with
  | nil => intro i sum _; simp [Aggregate.loop]
  | cons s rest ih =>
    intro i sum h
    have hlen : (s :: rest).length = rest.length + 1 := rfl
    rw [hlen] at h
    have hshift : ∀ t : Nat, i + 1 + t = i + (t + 1) := by intro t; omega
    rw [Aggregate.loop, getElem?_eq_some_getD proofs 0 i (by omega)]
    show Aggregate.loop L c sets message proofs (i + 1) rest _ = _
    rw [ih (i + 1) _ (by omega), hlen, Finset.sum_range_succ']
    simp only [List.getD_cons_succ, List.getD_cons_zero, Nat.add_zero, hshift]
    congr 1
    rw [add_assoc, add_comm (tiHash L c sets message s • _)]

/-- What `Aggregate` returns when the three sequences have the same length. -/
theorem Aggregate_eq (L : Bls12381 Scalar G1 G2 Gt) (c : G1) (sets : List Int)
    (message : List Scalar) (proofs : List G1)
    (h1 : sets.length = proofs.length) (h2 : sets.length = message.length) :
    Aggregate L c sets message proofs
      = some (∑ t ∈ Finset.range sets.length,
          tiHash L c sets message (sets.getD t 0) • proofs.getD t 0) := by
  unfold Aggregate
  rw [if_neg (by omega), Aggregate_loop_spec L c sets message proofs sets 0 0 (by omega),
    zero_add]
  simp only [Nat.zero_add]

/-- C10 (aggregate value and length check): `Aggregate` fails when the three sequences
do not all have the same length; when they do it returns `Σ_t t_t * proofs[t]` with `t_t`
the hash-to-scalar of `LE64(positions[t]) ++ bytes(C) ++ LE64(positions[0]) ++ ... ++
bytes(values[k-1])`; on empty sequences it returns the identity of group 1. -/
theorem C10_Aggregate_value (L : Bls12381 Scalar G1 G2 Gt) (c : G1) (positions : List Int)
    (values : List Scalar) (proofs : List G1) :
    Aggregate L c positions values proofs
      = (if positions.length = proofs.length ∧ positions.length = values.length then
          some (∑ t ∈ Finset.range positions.length,
            challenge L c positions values (positions.getD t 0) • proofs.getD t 0)
        else none) ∧
    Aggregate L c [] [] [] = some 0 := by
  constructor
  · by_cases h : positions.length = proofs.length ∧ positions.length = values.length
    · rw [if_pos h, Aggregate_eq L c positions values proofs h.1 h.2]
      simp only [tiHash_eq_challenge]
    · rw [if_neg h]
      unfold Aggregate
      rw [if_pos (by omega)]
  · rw [Aggregate_eq L c [] [] [] rfl rfl]
    simp

/-! ## Verify -/

theorem Verify_loop_spec (L : Bls12381 Scalar G1 G2 Gt) (pp : PP G1 G2) (c : G1)
    (sets : List Int) (message : List Scalar) (gt : Gt) :
    ∀ (rest : List Int) (i : Nat) (st : G2 × Gt), i + rest.length ≤ message.length →
      (∀ s ∈ rest, 0 ≤ s ∧ pp.N - s ≤ pp.P2.length ∧ s < pp.N) →
      Verify.loop L pp c sets message gt i rest st
        = some (st.1 + ∑ t ∈ Finset.range rest.length,
              tiHash L c sets message (rest.getD t 0)
                • pp.P2.getD (pp.N - 1 - rest.getD t 0).toNat 0,
            st.2 + ∑ t ∈ Finset.range rest.length,
              (message.getD (i + t) 0 * tiHash L c sets message (rest.getD t 0)) • gt) := by
  intro rest
  induction rest with
  | nil => intro i st _ _; simp [Verify.loop]
  | cons s rest ih =>
    intro i st h hs
    have hlen : (s :: rest).length = rest.length + 1 := rfl
    rw [hlen] at h
    have hshift : ∀ t : Nat, i + 1 + t = i + (t + 1) := by intro t; omega
    obtain ⟨hs0, hs1, hs2⟩ := hs s (List.mem_cons_self s rest)
    rw [Verify.loop, index?_eq_some_getD pp.P2 0 (pp.N - 1 - s) (by omega) (by omega),
      getElem?_eq_some_getD message 0 i (by omega)]
    show Verify.loop L pp c sets message gt (i + 1) rest _ = _
    rw [ih (i + 1) _ (by omega) (fun s2 h2 => hs s2 (List.mem_cons_of_mem s h2)), hlen,
      Finset.sum_range_succ', Finset.sum_range_succ']
    simp only [List.getD_cons_succ, List.getD_cons_zero, Nat.add_zero, hshift]
    congr 2
    · rw [add_assoc, add_comm (tiHash L c sets message s • _)]
    · rw [add_assoc, add_comm ((message.getD i 0 * tiHash L c sets message s) • gt)]

/-- What `Verify` returns on equal-length sequences with every position in `[0, N)`. -/
theorem Verify_eq (L : Bls12381 Scalar G1 G2 Gt) [DecidableEq Gt] (pp : PP G1 G2)
    (c proof : G1) (sets : List Int) (message : List Scalar)
    (hpp : pp.WellFormed) (hN : 1 ≤ pp.N) (hlen : sets.length = message.length)
    (hpos : ∀ s ∈ sets, 0 ≤ s ∧ s < pp.N) :
    Verify L pp c sets message proof
      = some (decide (L.Pair c (∑ t ∈ Finset.range sets.length,
            tiHash L c sets message (sets.getD t 0)
              • pp.P2.getD (pp.N - 1 - sets.getD t 0).toNat 0)
          = L.Pair proof L.G2Generator + ∑ t ∈ Finset.range sets.length,
            (message.getD t 0 * tiHash L c sets message (sets.getD t 0))
              • L.Pair (pp.P1.getD 0 0) (pp.P2.getD (pp.N - 1).toNat 0))) := by
  obtain ⟨h0, h1, h2⟩ := hpp
  unfold Verify
  rw [if_neg (by omega), getElem?_eq_some_getD pp.P1 0 0 (by omega),
    index?_eq_some_getD pp.P2 0 (pp.N - 1) (by omega) (by omega)]
  simp only []
  rw [Verify_loop_spec L pp c sets message _ sets 0 (0, 0) (by omega)
    (fun s hs => ⟨(hpos s hs).1, by have := (hpos s hs).1; omega, (hpos s hs).2⟩)]
  simp only [zero_add, Nat.zero_add]

/-- C7 (acceptance condition): on well-formed parameters with `N ≥ 1`, for every commitment
`C`, aggregate proof `A` and equal-length `positions`, `values` with every position in
`[0, N)`, `Verify` returns a boolean, and it is `true` if and only if
`e(C, Σ_t t_t * P2[N-1-positions[t]]) = e(A, g2) * Π_t e(P1[0], P2[N-1])^(values[t] * t_t)`
(the target group written additively), with `t_t` the challenge `Aggregate` derives for
slot `t` from `(C, positions, values)`. -/
theorem C7_Verify_acceptance (L : Bls12381 Scalar G1 G2 Gt) [DecidableEq Gt] (pp : PP G1 G2)
    (C A : G1) (positions : List Int) (values : List Scalar)
    (hpp : pp.WellFormed) (hN : 1 ≤ pp.N) (hlen : positions.length = values.length)
    (hpos : ∀ s ∈ positions, 0 ≤ s ∧ s < pp.N) :
    ∃ b : Bool, Verify L pp C positions values A = some b ∧
      (b = true ↔
        L.Pair C (∑ t ∈ Finset.range positions.length,
            tiHash L C positions values (positions.getD t 0)
              • pp.P2.getD (pp.N - 1 - positions.getD t 0).toNat 0)
          = L.Pair A L.G2Generator + ∑ t ∈ Finset.range positions.length,
            (values.getD t 0 * tiHash L C positions values (positions.getD t 0))
              • L.Pair (pp.P1.getD 0 0) (pp.P2.getD (pp.N - 1).toNat 0)) :=
  ⟨_, Verify_eq L pp C A positions values hpp hN hlen hpos, decide_eq_true_iff⟩

/-- C7, on the parameters of the small instance, for the commitment `12`, the aggregate
proof `3` and the claim that position 1 holds the value 7. -/
theorem C7_Verify_acceptance_witness :
    toyPP.WellFormed ∧ (1 : Int) ≤ toyPP.N ∧
    ([(1 : Int)].length = [(7 : ZMod 13)].length) ∧
    (∀ s ∈ [(1 : Int)], 0 ≤ s ∧ s < toyPP.N) ∧
    ∃ b : Bool, Verify toy toyPP (12 : ZMod 13) [1] [(7 : ZMod 13)] (3 : ZMod 13) = some b ∧
      (b = true ↔
        toy.Pair (12 : ZMod 13) (∑ t ∈ Finset.range [(1 : Int)].length,
            tiHash toy (12 : ZMod 13) [1] [(7 : ZMod 13)] ([(1 : Int)].getD t 0)
              • toyPP.P2.getD (toyPP.N - 1 - [(1 : Int)].getD t 0).toNat 0)
          = toy.Pair (3 : ZMod 13) toy.G2Generator + ∑ t ∈ Finset.range [(1 : Int)].length,
            ([(7 : ZMod 13)].getD t 0
                * tiHash toy (12 : ZMod 13) [1] [(7 : ZMod 13)] ([(1 : Int)].getD t 0))
              • toy.Pair (toyPP.P1.getD 0 0) (toyPP.P2.getD (toyPP.N - 1).toNat 0)) :=
  ⟨⟨by decide, by decide, by decide⟩, by decide, rfl, by decide,
    C7_Verify_acceptance toy toyPP 12 3 [1] [7] ⟨by decide, by decide, by decide⟩
      (by decide) rfl (by decide)⟩

/-! ## UpdateCommitment -/

theorem UpdateCommitment_loop_spec (pp : PP G1 G2) (originMessage nowMessage : List Scalar) :
    ∀ (rest : List Int) (i : Nat) (sum : G1), i + rest.length ≤ nowMessage.length →
      i + rest.length ≤ originMessage.length →
      (∀ s ∈ rest, 0 ≤ s ∧ s < pp.P1.length) →
      UpdateCommitment.loop pp originMessage nowMessage i rest sum
        = some (sum + ∑ t ∈ Finset.range rest.length,
            (nowMessage.getD (i + t) 0 - originMessage.getD (i + t) 0)
              • pp.P1.getD (rest.getD t 0).toNat 0) := by
  intro rest
  induction rest with
  | nil => intro i sum _ _ _; simp [UpdateCommitment.loop]
  | cons s rest ih =>
    intro i sum h1 h2 hs
    have hlen : (s :: rest).length = rest.length + 1 := rfl
    rw [hlen] at h1 h2
    have hshift : ∀ t : Nat, i + 1 + t = i + (t + 1) := by intro t; omega
    obtain ⟨hs0, hs1⟩ := hs s (List.mem_cons_self s rest)
    rw [UpdateCommitment.loop, getElem?_eq_some_getD nowMessage 0 i (by omega),
      getElem?_eq_some_getD originMessage 0 i (by omega),
      index?_eq_some_getD pp.P1 0 s hs0 hs1]
    show UpdateCommitment.loop pp originMessage nowMessage (i + 1) rest _ = _
    rw [ih (i + 1) _ (by omega) (by omega) (fun s2 h => hs s2 (List.mem_cons_of_mem s h)),
      hlen, Finset.sum_range_succ']
    simp only [List.getD_cons_succ, List.getD_cons_zero, Nat.add_zero, hshift]
    congr 1
    rw [add_assoc, add_comm ((nowMessage.getD i 0 - originMessage.getD i 0) • _)]

/-- What `UpdateCommitment` returns: `C + Σ_t (newValues[t] - oldValues[t]) * P1[positions[t]]`. -/
theorem UpdateCommitment_eq (L : Bls12381 Scalar G1 G2 Gt) (pp : PP G1 G2) (c : G1)
    (originMessage nowMessage : List Scalar) (sets : List Int)
    (h1 : originMessage.length = nowMessage.length) (h2 : sets.length = nowMessage.length)
    (hs : ∀ s ∈ sets, 0 ≤ s ∧ s < pp.P1.length) :
    UpdateCommitment L pp c originMessage nowMessage sets
      = some (c + ∑ t ∈ Finset.range sets.length,
          (nowMessage.getD t 0 - originMessage.getD t 0)
            • pp.P1.getD (sets.getD t 0).toNat 0) := by
  unfold UpdateCommitment
  rw [if_neg (by omega), L.G1SetBytes_Bytes c,
    UpdateCommitment_loop_spec pp originMessage nowMessage sets 0 0 (by omega) (by omega) hs]
  simp only [Option.getD_some, zero_add, Nat.zero_add]

theorem getD_map_of_lt {α β : Type} (f : α → β) (l : List α) (d : α) (e : β) (t : Nat)
    (h : t < l.length) : (l.map f).getD t e = f (l.getD t d) := by
  rw [List.getD_eq_getElem _ _ (by simpa using h), List.getD_eq_getElem _ _ h,
    List.getElem_map]

theorem getD_mem {α : Type} (l : List α) (d : α) (t : Nat) (h : t < l.length) :
    l.getD t d ∈ l := by
  rw [List.getD_eq_getElem _ _ h]
  exact List.getElem_mem h

/-- The algebra behind update consistency: replacing the entries at distinct positions
changes the weighted sum by the weighted differences at those positions. -/
theorem sum_update_eq (P : List G1) (v v2 w : List Scalar) (S : List Int)
    (hS : S.Nodup) (hrange : ∀ s ∈ S, 0 ≤ s ∧ s < v.length)
    (hnew : ∀ t : Nat, t < S.length → v2.getD (S.getD t 0).toNat 0 = w.getD t 0)
    (hold : ∀ j : Nat, j < v.length → (j : Int) ∉ S → v2.getD j 0 = v.getD j 0) :
    (∑ j ∈ Finset.range v.length, v.getD j 0 • P.getD j 0)
      + ∑ t ∈ Finset.range S.length,
          (w.getD t 0 - v.getD (S.getD t 0).toNat 0) • P.getD (S.getD t 0).toNat 0
      = ∑ j ∈ Finset.range v.length, v2.getD j 0 • P.getD j 0 := by
  have hinj : ∀ a ∈ Finset.range S.length, ∀ b ∈ Finset.range S.length,
      (S.getD a 0).toNat = (S.getD b 0).toNat → a = b := by
    intro a ha b hb hab
    rw [Finset.mem_range] at ha hb
    have ha2 := hrange _ (getD_mem S 0 a ha)
    have hb2 := hrange _ (getD_mem S 0 b hb)
    have hab2 : S.getD a 0 = S.getD b 0 := by omega
    rw [List.getD_eq_getElem _ _ ha, List.getD_eq_getElem _ _ hb] at hab2
    exact (List.Nodup.getElem_inj_iff hS).mp hab2
  have himg : ∑ t ∈ Finset.range S.length,
        (w.getD t 0 - v.getD (S.getD t 0).toNat 0) • P.getD (S.getD t 0).toNat 0
      = ∑ j ∈ (Finset.range S.length).image (fun t => (S.getD t 0).toNat),
          (v2.getD j 0 - v.getD j 0) • P.getD j 0 := by
    rw [Finset.sum_image hinj]
    apply Finset.sum_congr rfl
    intro t ht
    rw [Finset.mem_range] at ht
    rw [hnew t ht]
  have hsub : (Finset.range S.length).image (fun t => (S.getD t 0).toNat)
      ⊆ Finset.range v.length := by
    intro j hj
    rw [Finset.mem_image] at hj
    obtain ⟨t, ht, rfl⟩ := hj
    rw [Finset.mem_range] at ht ⊢
    have := hrange _ (getD_mem S 0 t ht)
    omega
  have hzero : ∀ j ∈ Finset.range v.length,
      j ∉ (Finset.range S.length).image (fun t => (S.getD t 0).toNat) →
      (v2.getD j 0 - v.getD j 0) • P.getD j 0 = 0 := by
    intro j hj hnot
    rw [Finset.mem_range] at hj
    have hjS : (j : Int) ∉ S := by
      intro hmem
      obtain ⟨t, ht, hget⟩ := List.getElem_of_mem hmem
      apply hnot
      rw [Finset.mem_image]
      refine ⟨t, Finset.mem_range.mpr ht, ?_⟩
      rw [List.getD_eq_getElem _ _ ht, hget]
      rfl
    rw [hold j hj hjS, sub_self, zero_smul]
  rw [himg, Finset.sum_subset hsub hzero, ← Finset.sum_add_distrib]
  apply Finset.sum_congr rfl
  intro j _
  rw [← add_smul]
  congr 1
  ring

/-- C3 (update consistency): on well-formed parameters, for a vector `v` of length
`m ≤ N`, distinct positions `S` in `[0, m)` and new values `w` of the same length as `S`,
`UpdateCommitment(Commitment(v), [v[s] for s in S], w, S)` and `Commitment(v2)` return the
same group element, for every `v2` that has `v2[S[t]] = w[t]` for every `t` and agrees
with `v` elsewhere. -/
theorem C3_Update_consistency (L : Bls12381 Scalar G1 G2 Gt) (pp : PP G1 G2)
    (v v2 w : List Scalar) (S : List Int)
    (hpp : pp.WellFormed) (hm : (v.length : Int) ≤ pp.N)
    (hS : S.Nodup) (hrange : ∀ s ∈ S, 0 ≤ s ∧ s < v.length) (hw : w.length = S.length)
    (hlen : v2.length = v.length)
    (hnew : ∀ t : Nat, t < S.length → v2.getD (S.getD t 0).toNat 0 = w.getD t 0)
    (hold : ∀ j : Nat, j < v.length → (j : Int) ∉ S → v2.getD j 0 = v.getD j 0) :
    ∃ c2 : G1, Commitment pp v2 = some c2 ∧
      (Commitment pp v).bind
        (fun c => UpdateCommitment L pp c (S.map (fun s => v.getD s.toNat 0)) w S)
        = some c2 := by
  obtain ⟨h0, h1, h2⟩ := hpp
  refine ⟨_, Commitment_eq pp v2 (by omega), ?_⟩
  rw [Commitment_eq pp v (by omega), Option.some_bind,
    UpdateCommitment_eq L pp _ _ w S (by simp [hw]) hw.symm
      (fun s hs => ⟨(hrange s hs).1, by have := (hrange s hs).2; omega⟩)]
  congr 1
  rw [hlen, ← sum_update_eq pp.P1 v v2 w S hS hrange hnew hold]
  congr 1
  apply Finset.sum_congr rfl
  intro t ht
  rw [Finset.mem_range] at ht
  rw [getD_map_of_lt (fun s : Int => v.getD s.toNat 0) S 0 0 t ht]

theorem toy_update_new : ∀ t : Nat, t < [(1 : Int)].length →
    [(5 : ZMod 13), 9].getD ([(1 : Int)].getD t 0).toNat 0 = [(9 : ZMod 13)].getD t 0 := by
  intro t ht
  have h0 : t = 0 := by simpa using ht
  subst h0
  decide

theorem toy_update_old : ∀ j : Nat, j < toyVec.length → (j : Int) ∉ [(1 : Int)] →
    [(5 : ZMod 13), 9].getD j 0 = toyVec.getD j 0 := by
  intro j hj hnot
  have h2 : j < 2 := hj
  interval_cases j
  · decide
  · exact absurd (by decide) hnot

/-- C3, in the small instance: the vector `[5, 7]` with position 1 set to 9. -/
theorem C3_Update_consistency_witness :
    toyPP.WellFormed ∧ ((toyVec.length : Int) ≤ toyPP.N) ∧ [(1 : Int)].Nodup ∧
    (∀ s ∈ [(1 : Int)], 0 ≤ s ∧ s < toyVec.length) ∧
    ([(9 : ZMod 13)].length = [(1 : Int)].length) ∧
    ([(5 : ZMod 13), 9].length = toyVec.length) ∧
    (∀ t : Nat, t < [(1 : Int)].length →
      [(5 : ZMod 13), 9].getD ([(1 : Int)].getD t 0).toNat 0 = [(9 : ZMod 13)].getD t 0) ∧
    (∀ j : Nat, j < toyVec.length → (j : Int) ∉ [(1 : Int)] →
      [(5 : ZMod 13), 9].getD j 0 = toyVec.getD j 0) ∧
    ∃ c2 : ZMod 13, Commitment toyPP [(5 : ZMod 13), 9] = some c2 ∧
      (Commitment toyPP toyVec).bind
        (fun c => UpdateCommitment toy toyPP c
          ([(1 : Int)].map (fun s => toyVec.getD s.toNat 0)) [(9 : ZMod 13)] [1])
        = some c2 :=
  ⟨⟨by decide, by decide, by decide⟩, by decide, by decide, by decide, rfl, rfl,
    toy_update_new, toy_update_old,
    C3_Update_consistency toy toyPP toyVec [5, 9] [9] [1]
      ⟨by decide, by decide, by decide⟩ (by decide) (by decide) (by decide) rfl rfl
      toy_update_new toy_update_old⟩

/-! ## The pairing equation on honest inputs -/

theorem Pair_zero_left (L : Bls12381 Scalar G1 G2 Gt) (q : G2) : L.Pair 0 q = 0 := by
  have h := L.Pair_smul_left 0 0 q
  rwa [zero_smul, zero_smul] at h

theorem Pair_zero_right (L : Bls12381 Scalar G1 G2 Gt) (a : G1) : L.Pair a 0 = 0 := by
  have h := L.Pair_smul_right 0 a 0
  rwa [zero_smul, zero_smul] at h

theorem Pair_sum_left (L : Bls12381 Scalar G1 G2 Gt) (k : Nat) (f : Nat → G1) (q : G2) :
    L.Pair (∑ t ∈ Finset.range k, f t) q = ∑ t ∈ Finset.range k, L.Pair (f t) q := by
  induction k with
  | zero => simp [Pair_zero_left]
  | succ k ih => rw [Finset.sum_range_succ, Finset.sum_range_succ, L.Pair_add_left, ih]

theorem Pair_sum_right (L : Bls12381 Scalar G1 G2 Gt) (k : Nat) (a : G1) (f : Nat → G2) :
    L.Pair a (∑ t ∈ Finset.range k, f t) = ∑ t ∈ Finset.range k, L.Pair a (f t) := by
  induction k with
  | zero => simp [Pair_zero_right]
  | succ k ih => rw [Finset.sum_range_succ, Finset.sum_range_succ, L.Pair_add_right, ih]

theorem srsP1_getD (L : Bls12381 Scalar G1 G2 Gt) (alpha : Scalar) (n k : Nat)
    (hk : k < 2 * n) (hne : k ≠ n) :
    (srsP1 L alpha n).getD k 0 = alpha ^ (k + 1) • L.G1Generator := by
  rw [List.getD_eq_getElem?_getD, srsP1_getElem? L alpha n k hk hne, Option.getD_some]

theorem srsP2_getD (L : Bls12381 Scalar G1 G2 Gt) (alpha : Scalar) (n k : Nat)
    (hk : k < n) :
    (srsP2 L alpha n).getD k 0 = alpha ^ (k + 1) • L.G2Generator := by
  rw [List.getD_eq_getElem?_getD, srsP2_getElem? L alpha n k hk, Option.getD_some]

theorem sum_split_at {M : Type} [AddCommMonoid M] (m : Nat) (s : Int) (h : Nat → M)
    (hs0 : 0 ≤ s) (hs : s < m) :
    ∑ j ∈ Finset.range m, h j
      = (∑ j ∈ (Finset.range m).filter (fun j : Nat => (j : Int) ≠ s), h j) + h s.toNat := by
  rw [← Finset.sum_filter_add_sum_filter_not (Finset.range m) (fun j : Nat => (j : Int) ≠ s)]
  congr 1
  have hsing : (Finset.range m).filter (fun j : Nat => ¬ (j : Int) ≠ s) = {s.toNat} := by
    ext j
    simp only [Finset.mem_filter, Finset.mem_range, Finset.mem_singleton, not_not]
    omega
  rw [hsing, Finset.sum_singleton]

/-- On the parameters `Setup` builds, the commitment shifted by `alpha^(N-s)` is the
opening proof of position `s` plus the diagonal term `v[s] * alpha^(N+1) * g1`. -/
theorem shift_commitment (L : Bls12381 Scalar G1 G2 Gt) (alpha : Scalar) (N : Int)
    (v : List Scalar) (s : Int) (hm : (v.length : Int) ≤ N) (hs0 : 0 ≤ s)
    (hs : s < v.length) :
    alpha ^ ((N - 1 - s).toNat + 1)
        • (∑ j ∈ Finset.range v.length, v.getD j 0 • (srsP1 L alpha N.toNat).getD j 0)
      = (∑ j ∈ (Finset.range v.length).filter (fun j : Nat => (j : Int) ≠ s),
          v.getD j 0 • (srsP1 L alpha N.toNat).getD (N - s + j).toNat 0)
        + v.getD s.toNat 0 • alpha ^ (N.toNat + 1) • L.G1Generator := by
  have hterm : ∀ j : Nat, v.getD j 0 • alpha ^ ((N - s + j).toNat + 1) • L.G1Generator
      = alpha ^ ((N - 1 - s).toNat + 1) • v.getD j 0 • alpha ^ (j + 1) • L.G1Generator := by
    intro j
    have e : (N - s + j).toNat + 1 = (N - 1 - s).toNat + 1 + (j + 1) := by omega
    rw [smul_smul, smul_smul, smul_smul, e, pow_add]
    congr 1
    ring
  have hlhs : alpha ^ ((N - 1 - s).toNat + 1)
        • (∑ j ∈ Finset.range v.length, v.getD j 0 • (srsP1 L alpha N.toNat).getD j 0)
      = ∑ j ∈ Finset.range v.length,
          v.getD j 0 • alpha ^ ((N - s + j).toNat + 1) • L.G1Generator := by
    rw [Finset.smul_sum]
    apply Finset.sum_congr rfl
    intro j hj
    rw [Finset.mem_range] at hj
    rw [srsP1_getD L alpha N.toNat j (by omega) (by omega), hterm]
  have hrhs : ∑ j ∈ (Finset.range v.length).filter (fun j : Nat => (j : Int) ≠ s),
          v.getD j 0 • (srsP1 L alpha N.toNat).getD (N - s + j).toNat 0
      = ∑ j ∈ (Finset.range v.length).filter (fun j : Nat => (j : Int) ≠ s),
          v.getD j 0 • alpha ^ ((N - s + j).toNat + 1) • L.G1Generator := by
    apply Finset.sum_congr rfl
    intro j hj
    rw [Finset.mem_filter, Finset.mem_range] at hj
    rw [srsP1_getD L alpha N.toNat _ (by omega) (by omega)]
  have hdiag : (N - s + (s.toNat : Int)).toNat + 1 = N.toNat + 1 := by omega
  rw [hlhs, hrhs, sum_split_at v.length s _ hs0 hs, hdiag]

/-- The pairing identity for one position on the parameters `Setup` builds:
`e(C, P2[N-1-s]) = e(π_s, g2) * e(P1[0], P2[N-1])^(v[s])`. -/
theorem position_identity (L : Bls12381 Scalar G1 G2 Gt) (alpha : Scalar) (N : Int)
    (v : List Scalar) (s : Int) (hN : 1 ≤ N) (hm : (v.length : Int) ≤ N) (hs0 : 0 ≤ s)
    (hs : s < v.length) :
    L.Pair (∑ j ∈ Finset.range v.length, v.getD j 0 • (srsP1 L alpha N.toNat).getD j 0)
        ((srsP2 L alpha N.toNat).getD (N - 1 - s).toNat 0)
      = L.Pair (∑ j ∈ (Finset.range v.length).filter (fun j : Nat => (j : Int) ≠ s),
            v.getD j 0 • (srsP1 L alpha N.toNat).getD (N - s + j).toNat 0) L.G2Generator
        + v.getD s.toNat 0
            • L.Pair ((srsP1 L alpha N.toNat).getD 0 0)
                ((srsP2 L alpha N.toNat).getD (N - 1).toNat 0) := by
  have e1 : (N - 1).toNat + 1 = N.toNat := by omega
  rw [srsP2_getD L alpha N.toNat _ (by omega), srsP2_getD L alpha N.toNat (N - 1).toNat (by omega),
    srsP1_getD L alpha N.toNat 0 (by omega) (by omega), L.Pair_smul_right, ← L.Pair_smul_left,
    shift_commitment L alpha N v s hm hs0 hs, L.Pair_add_left, L.Pair_smul_left,
    L.Pair_smul_left, L.Pair_smul_left, L.Pair_smul_right, e1]
  congr 1
  simp only [smul_smul]
  congr 1
  ring

theorem mapM_eq_some_map {α β : Type} (f : α → Option β) (g : α → β) :
    ∀ l : List α, (∀ a ∈ l, f a = some (g a)) → l.mapM f = some (l.map g) := by
  intro l
  induction l with
  | nil => intro _; rfl
  | cons a rest ih =>
    intro h
    rw [List.mapM_cons, h a (List.mem_cons_self a rest),
      ih (fun b hb => h b (List.mem_cons_of_mem a hb))]
    rfl

/-- The pairing equation `Verify` checks holds on honest inputs, whatever the
coefficients `τ` of the slots are. -/
theorem honest_equation (L : Bls12381 Scalar G1 G2 Gt) (alpha : Scalar) (N : Int)
    (v : List Scalar) (p : List Int) (τ : Nat → Scalar) (hN : 1 ≤ N)
    (hm : (v.length : Int) ≤ N) (hp : ∀ s ∈ p, 0 ≤ s ∧ s < v.length) :
    L.Pair (∑ j ∈ Finset.range v.length, v.getD j 0 • (srsP1 L alpha N.toNat).getD j 0)
        (∑ t ∈ Finset.range p.length,
          τ t • (srsP2 L alpha N.toNat).getD (N - 1 - p.getD t 0).toNat 0)
      = L.Pair (∑ t ∈ Finset.range p.length, τ t •
            (p.map (fun s : Int =>
              ∑ j ∈ (Finset.range v.length).filter (fun j : Nat => (j : Int) ≠ s),
                v.getD j 0 • (srsP1 L alpha N.toNat).getD (N - s + j).toNat 0)).getD t 0)
          L.G2Generator
        + ∑ t ∈ Finset.range p.length,
            ((p.map (fun s : Int => v.getD s.toNat 0)).getD t 0 * τ t)
              • L.Pair ((srsP1 L alpha N.toNat).getD 0 0)
                  ((srsP2 L alpha N.toNat).getD (N - 1).toNat 0) := by
  rw [Pair_sum_right, Pair_sum_left, ← Finset.sum_add_distrib]
  apply Finset.sum_congr rfl
  intro t ht
  rw [Finset.mem_range] at ht
  obtain ⟨hs0, hs⟩ := hp _ (getD_mem p 0 t ht)
  rw [getD_map_of_lt _ p 0 0 t ht, getD_map_of_lt _ p 0 0 t ht, L.Pair_smul_right,
    L.Pair_smul_left, position_identity L alpha N v (p.getD t 0) hN hm hs0 hs, smul_add,
    smul_smul, mul_comm (τ t)]

/-- Honest proofs verify, for any sequence of positions inside the vector. -/
theorem honest_verify (L : Bls12381 Scalar G1 G2 Gt) [DecidableEq Gt] (alpha : Scalar)
    (N : Int) (v : List Scalar) (p : List Int) (hN : 1 ≤ N) (hm : (v.length : Int) ≤ N)
    (hp : ∀ s ∈ p, 0 ≤ s ∧ s < v.length) :
    (do
      let pp ← Setup L alpha N
      let C ← Commitment pp v
      let vals ← p.mapM (fun s => index? v s)
      let proofs ← p.mapM (fun s => Proof pp v s)
      let A ← Aggregate L C p vals proofs
      Verify L pp C p vals A) = some true := by
  have hl1 : (srsP1 L alpha N.toNat).length = 2 * N.toNat := srsP1_length L alpha N.toNat
  have hl2 : (srsP2 L alpha N.toNat).length = N.toNat := srsP2_length L alpha N.toNat
  have hwf : PP.WellFormed
      ({ N := N, P1 := srsP1 L alpha N.toNat, P2 := srsP2 L alpha N.toNat } : PP G1 G2) := by
    refine ⟨?_, ?_, ?_⟩
    · show (0 : Int) ≤ N
      omega
    · show ((srsP1 L alpha N.toNat).length : Int) = 2 * N
      omega
    · show ((srsP2 L alpha N.toNat).length : Int) = N
      omega
  have hvals : p.mapM (fun s => index? v s) = some (p.map (fun s : Int => v.getD s.toNat 0)) :=
    mapM_eq_some_map _ _ p
      (fun s hs => index?_eq_some_getD v 0 s (hp s hs).1 (hp s hs).2)
  have hproofs : p.mapM (fun s => Proof
        ({ N := N, P1 := srsP1 L alpha N.toNat, P2 := srsP2 L alpha N.toNat } : PP G1 G2) v s)
      = some (p.map (fun s : Int =>
          ∑ j ∈ (Finset.range v.length).filter (fun j : Nat => (j : Int) ≠ s),
            v.getD j 0 • (srsP1 L alpha N.toNat).getD (N - s + j).toNat 0)) := by
    apply mapM_eq_some_map
    intro s hs
    have hb := hp s hs
    have hfit : N + (v.length : Int) ≤ ((srsP1 L alpha N.toNat).length : Int) := by omega
    rw [Proof_eq _ v s hm hfit, if_neg (by omega)]
  have hfit : v.length ≤ (srsP1 L alpha N.toNat).length := by omega
  rw [Setup_eq, if_neg (by omega)]
  simp only [Option.bind_eq_bind, Option.some_bind]
  rw [Commitment_eq _ v hfit]
  simp only [Option.some_bind, hvals, hproofs]
  rw [Aggregate_eq L _ p _ _ (by simp) (by simp)]
  simp only [Option.some_bind]
  have hpos : ∀ s ∈ p, 0 ≤ s ∧ s < N := by
    intro s hs
    have hb := hp s hs
    omega
  rw [Verify_eq L _ _ _ p _ hwf hN (by simp) hpos]
  congr 1
  rw [decide_eq_true_iff]
  exact honest_equation L alpha N v p _ hN hm hp

/-- The closed-form parameters satisfy the length constraints of the data model. -/
theorem srs_wellFormed (L : Bls12381 Scalar G1 G2 Gt) (alpha : Scalar) (N : Int)
    (hN : 0 ≤ N) :
    PP.WellFormed
      ({ N := N, P1 := srsP1 L alpha N.toNat, P2 := srsP2 L alpha N.toNat } : PP G1 G2) := by
  have hl1 : (srsP1 L alpha N.toNat).length = 2 * N.toNat := srsP1_length L alpha N.toNat
  have hl2 : (srsP2 L alpha N.toNat).length = N.toNat := srsP2_length L alpha N.toNat
  refine ⟨hN, ?_, ?_⟩
  · show ((srsP1 L alpha N.toNat).length : Int) = 2 * N
    omega
  · show ((srsP2 L alpha N.toNat).length : Int) = N
    omega

/-- Whatever `Setup` returns satisfies the length constraints of the data model. -/
theorem Setup_wellFormed (L : Bls12381 Scalar G1 G2 Gt) (alpha : Scalar) (N : Int)
    (pp : PP G1 G2) (h : Setup L alpha N = some pp) : pp.WellFormed := by
  rw [Setup_eq] at h
  by_cases hN : N < 0
  · rw [if_pos hN] at h
    exact Option.noConfusion h
  · rw [if_neg hN] at h
    cases h
    exact srs_wellFormed L alpha N (by omega)

/-- C1 (round-trip honesty): for `N ≥ 1`, every trapdoor `alpha`, every vector `v` of length
`m ≤ N` and every position `i` in `[0, m)`, committing to `v`, opening position `i`,
aggregating that one proof for the value `v[i]` and verifying returns `true`, none of the
operations failing. -/
theorem C1_round_trip_honesty (L : Bls12381 Scalar G1 G2 Gt) [DecidableEq Gt]
    (alpha : Scalar) (N : Int) (v : List Scalar) (i : Int) (hN : 1 ≤ N)
    (hm : (v.length : Int) ≤ N) (hi0 : 0 ≤ i) (hi : i < v.length) :
    (do
      let pp ← Setup L alpha N
      let C ← Commitment pp v
      let π ← Proof pp v i
      let x ← index? v i
      let A ← Aggregate L C [i] [x] [π]
      Verify L pp C [i] [x] A) = some true := by
  have hl1 : (srsP1 L alpha N.toNat).length = 2 * N.toNat := srsP1_length L alpha N.toNat
  have hwf := srs_wellFormed L alpha N (by omega)
  have hfit : v.length ≤ (srsP1 L alpha N.toNat).length := by omega
  have hfit2 : N + (v.length : Int) ≤ ((srsP1 L alpha N.toNat).length : Int) := by omega
  have hp : ∀ s ∈ [i], 0 ≤ s ∧ s < (v.length : Int) := by
    intro s hs
    rw [List.mem_singleton] at hs
    subst hs
    exact ⟨hi0, hi⟩
  have hpos : ∀ s ∈ [i], 0 ≤ s ∧ s < N := by
    intro s hs
    have hb := hp s hs
    omega
  rw [Setup_eq, if_neg (by omega)]
  simp only [Option.bind_eq_bind, Option.some_bind]
  rw [Commitment_eq _ v hfit]
  simp only [Option.some_bind]
  rw [Proof_eq _ v i hm hfit2, if_neg (by omega)]
  simp only [Option.some_bind]
  rw [index?_eq_some_getD v 0 i hi0 hi]
  simp only [Option.some_bind]
  rw [Aggregate_eq L _ [i] _ _ rfl rfl]
  simp only [Option.some_bind]
  rw [Verify_eq L _ _ _ [i] _ hwf hN rfl hpos]
  congr 1
  rw [decide_eq_true_iff]
  exact honest_equation L alpha N v [i] _ hN hm hp

/-- C1, in the small instance: `N = 2`, `alpha = 2`, the vector `[5, 7]`, position 1. -/
theorem C1_round_trip_honesty_witness :
    (1 : Int) ≤ 2 ∧ ((toyVec.length : Int) ≤ 2) ∧ (0 : Int) ≤ 1 ∧ ((1 : Int) < toyVec.length) ∧
    (do
      let pp ← Setup toy (2 : ZMod 13) 2
      let C ← Commitment pp toyVec
      let π ← Proof pp toyVec 1
      let x ← index? toyVec 1
      let A ← Aggregate toy C [1] [x] [π]
      Verify toy pp C [1] [x] A) = some true :=
  ⟨by decide, by decide, by decide, by decide,
    C1_round_trip_honesty toy 2 2 toyVec 1 (by decide) (by decide) (by decide) (by decide)⟩

/-- C2 (multi-position honesty): for `N ≥ 1`, every trapdoor `alpha`, every vector `v` of
length `m ≤ N` and every sequence `p` of positions in `[0, m)` (of any length, repetitions
allowed), committing to `v`, opening every `p[t]`, aggregating the proofs for the values
`v[p[t]]` and verifying returns `true`, none of the operations failing. -/
theorem C2_multi_position_honesty (L : Bls12381 Scalar G1 G2 Gt) [DecidableEq Gt]
    (alpha : Scalar) (N : Int) (v : List Scalar) (p : List Int) (hN : 1 ≤ N)
    (hm : (v.length : Int) ≤ N) (hp : ∀ s ∈ p, 0 ≤ s ∧ s < v.length) :
    (do
      let pp ← Setup L alpha N
      let C ← Commitment pp v
      let vals ← p.mapM (fun s => index? v s)
      let proofs ← p.mapM (fun s => Proof pp v s)
      let A ← Aggregate L C p vals proofs
      Verify L pp C p vals A) = some true :=
  honest_verify L alpha N v p hN hm hp

/-- C2, in the small instance: `N = 2`, `alpha = 2`, the vector `[5, 7]`, positions
`[1, 0]`. -/
theorem C2_multi_position_honesty_witness :
    (1 : Int) ≤ 2 ∧ ((toyVec.length : Int) ≤ 2) ∧
    (∀ s ∈ [(1 : Int), 0], 0 ≤ s ∧ s < (toyVec.length : Int)) ∧
    (do
      let pp ← Setup toy (2 : ZMod 13) 2
      let C ← Commitment pp toyVec
      let vals ← [(1 : Int), 0].mapM (fun s => index? toyVec s)
      let proofs ← [(1 : Int), 0].mapM (fun s => Proof pp toyVec s)
      let A ← Aggregate toy C [1, 0] vals proofs
      Verify toy pp C [1, 0] vals A) = some true :=
  ⟨by decide, by decide, by decide,
    C2_multi_position_honesty toy 2 2 toyVec [1, 0] (by decide) (by decide) (by decide)⟩

/-! ## A wrong claimed value -/

/-- C6 (a wrong claimed value is rejected): for `N ≥ 1`, a non-zero trapdoor `alpha`, a
vector `v` of length `m ≤ N`, a position `i` in `[0, m)` and a claimed value `x ≠ v[i]`,
verifying the aggregate of the honest proof of position `i` against the claim `x` returns
`false`, provided the pairing of the generators is not the identity and the challenge
derived for `(C, [i], [x])` is not zero. -/
theorem C6_wrong_value_rejected (L : Bls12381 Scalar G1 G2 Gt) [DecidableEq Gt]
    (alpha : Scalar) (N : Int) (v : List Scalar) (i : Int) (x : Scalar) (hN : 1 ≤ N)
    (hα : alpha ≠ 0) (hm : (v.length : Int) ≤ N) (hi0 : 0 ≤ i) (hi : i < v.length)
    (hx : x ≠ v.getD i.toNat 0) (hE : L.Pair L.G1Generator L.G2Generator ≠ 0)
    (ht : ∀ pp C, Setup L alpha N = some pp → Commitment pp v = some C →
      tiHash L C [i] [x] i ≠ 0) :
    (do
      let pp ← Setup L alpha N
      let C ← Commitment pp v
      let π ← Proof pp v i
      let A ← Aggregate L C [i] [x] [π]
      Verify L pp C [i] [x] A) = some false := by
  have hl1 : (srsP1 L alpha N.toNat).length = 2 * N.toNat := srsP1_length L alpha N.toNat
  have hwf := srs_wellFormed L alpha N (by omega)
  have hfit : v.length ≤ (srsP1 L alpha N.toNat).length := by omega
  have hfit2 : N + (v.length : Int) ≤ ((srsP1 L alpha N.toNat).length : Int) := by omega
  have hpos : ∀ s ∈ [i], 0 ≤ s ∧ s < N := by
    intro s hs
    rw [List.mem_singleton] at hs
    subst hs
    omega
  have hsetup : Setup L alpha N = some
      ({ N := N, P1 := srsP1 L alpha N.toNat, P2 := srsP2 L alpha N.toNat } : PP G1 G2) := by
    rw [Setup_eq, if_neg (by omega)]
  have hti := ht _ _ hsetup (Commitment_eq _ v hfit)
  rw [hsetup]
  simp only [Option.bind_eq_bind, Option.some_bind]
  rw [Commitment_eq _ v hfit]
  simp only [Option.some_bind]
  rw [Proof_eq _ v i hm hfit2, if_neg (by omega)]
  simp only [Option.some_bind]
  rw [Aggregate_eq L _ [i] _ _ rfl rfl]
  simp only [Option.some_bind]
  rw [Verify_eq L _ _ _ [i] _ hwf hN rfl hpos]
  congr 1
  rw [decide_eq_false_iff_not]
  simp only [List.length_singleton, Finset.sum_range_one, List.getD_cons_zero]
  intro heq
  rw [L.Pair_smul_right, L.Pair_smul_left, position_identity L alpha N v i hN hm hi0 hi,
    smul_add, add_right_inj, smul_smul, ← sub_eq_zero, ← sub_smul] at heq
  have e1 : (N - 1).toNat + 1 = N.toNat := by omega
  rw [srsP2_getD L alpha N.toNat (N - 1).toNat (by omega),
    srsP1_getD L alpha N.toNat 0 (by omega) (by omega), L.Pair_smul_right, L.Pair_smul_left,
    e1] at heq
  rcases smul_eq_zero.mp heq with h | h
  · have h2 : tiHash L
        (∑ j ∈ Finset.range v.length, v.getD j 0 • (srsP1 L alpha N.toNat).getD j 0)
        [i] [x] i * (v.getD i.toNat 0 - x) = 0 := by
      linear_combination h
    rcases mul_eq_zero.mp h2 with h3 | h3
    · exact hti h3
    · exact hx (sub_eq_zero.mp h3).symm
  · rcases smul_eq_zero.mp h with h3 | h3
    · exact pow_ne_zero _ hα h3
    · rcases smul_eq_zero.mp h3 with h4 | h4
      · exact pow_ne_zero _ hα h4
      · exact hE h4

/-- C6, in the small instance: `N = 2`, `alpha = 2`, the vector `[5, 7]`, position 1 claimed
to hold 8. -/
theorem C6_wrong_value_rejected_witness :
    (1 : Int) ≤ 2 ∧ (2 : ZMod 13) ≠ 0 ∧ ((toyVec.length : Int) ≤ 2) ∧ (0 : Int) ≤ 1 ∧
    ((1 : Int) < toyVec.length) ∧ (8 : ZMod 13) ≠ toyVec.getD (1 : Int).toNat 0 ∧
    toy.Pair toy.G1Generator toy.G2Generator ≠ 0 ∧
    (∀ pp C, Setup toy (2 : ZMod 13) 2 = some pp → Commitment pp toyVec = some C →
      tiHash toy C [1] [(8 : ZMod 13)] 1 ≠ 0) ∧
    (do
      let pp ← Setup toy (2 : ZMod 13) 2
      let C ← Commitment pp toyVec
      let π ← Proof pp toyVec 1
      let A ← Aggregate toy C [1] [(8 : ZMod 13)] [π]
      Verify toy pp C [1] [(8 : ZMod 13)] A) = some false :=
  have ht : ∀ pp C, Setup toy (2 : ZMod 13) 2 = some pp → Commitment pp toyVec = some C →
      tiHash toy C [1] [(8 : ZMod 13)] 1 ≠ 0 := by
    intro pp C h1 h2
    have hs : Setup toy (2 : ZMod 13) 2 = some toyPP := by
      rw [Setup_eq, if_neg (by decide)]
      rfl
    rw [hs] at h1
    cases h1
    have hc : Commitment toyPP toyVec = some 12 := by decide
    rw [hc] at h2
    cases h2
    set_option maxRecDepth 100000 in decide
  ⟨by decide, by decide, by decide, by decide, by decide, by decide, by decide, ht,
    C6_wrong_value_rejected toy 2 2 toyVec 1 8 (by decide) (by decide) (by decide)
      (by decide) (by decide) (by decide) (by decide) ht⟩

/-! ## Failures of Verify -/

theorem Verify_loop_none (L : Bls12381 Scalar G1 G2 Gt) (pp : PP G1 G2) (c : G1)
    (sets : List Int) (message : List Scalar) (gt : Gt) :
    ∀ (rest : List Int) (i : Nat) (st : G2 × Gt),
      (∃ s ∈ rest, index? pp.P2 (pp.N - 1 - s) = none) →
      Verify.loop L pp c sets message gt i rest st = none := by
  intro rest
  induction rest with
  | nil =>
    intro i st h
    obtain ⟨s, hs, _⟩ := h
    exact absurd hs (List.not_mem_nil s)
  | cons s rest ih =>
    intro i st h
    rw [Verify.loop]
    cases hq : index? pp.P2 (pp.N - 1 - s) with
    | none => rfl
    | some q =>
      cases hm : message[i]? with
      | none => rfl
      | some m =>
        show Verify.loop L pp c sets message gt (i + 1) rest _ = none
        apply ih
        obtain ⟨s2, hs2, hnone⟩ := h
        rcases List.mem_cons.mp hs2 with heq | hmem
        · subst heq
          rw [hq] at hnone
          exact Option.noConfusion hnone
        · exact ⟨s2, hmem, hnone⟩

/-- On well-formed parameters `Verify` fails when some position is outside `[0, N)`. -/
theorem Verify_none_of_position (L : Bls12381 Scalar G1 G2 Gt) [DecidableEq Gt]
    (pp : PP G1 G2) (c proof : G1) (sets : List Int) (message : List Scalar)
    (hpp : pp.WellFormed) (hbad : ∃ s ∈ sets, s < 0 ∨ pp.N ≤ s) :
    Verify L pp c sets message proof = none := by
  obtain ⟨h0, h1, h2⟩ := hpp
  have hloop : ∀ gt, Verify.loop L pp c sets message gt 0 sets (0, 0) = none := by
    intro gt
    apply Verify_loop_none
    obtain ⟨s, hs, hout⟩ := hbad
    exact ⟨s, hs, (index?_eq_none_iff pp.P2 _).mpr (by omega)⟩
  unfold Verify
  by_cases hlen : sets.length ≠ message.length
  · rw [if_pos hlen]
  · rw [if_neg hlen]
    cases hp : pp.P1[0]? with
    | none => rfl
    | some p =>
      cases hq : index? pp.P2 (pp.N - 1) with
      | none => rfl
      | some q =>
        show (match Verify.loop L pp c sets message (L.Pair p q) 0 sets (0, 0) with
          | none => none
          | some st => some (decide (L.Pair c st.1 = L.Pair proof L.G2Generator + st.2)))
          = none
        rw [hloop]

/-- C11 (error behaviour of Verify): on the parameters `Setup` returns for `N ≥ 1`,
`Verify` fails exactly when `positions` and `values` have different lengths or some
position is outside `[0, N)`; on every other input, whatever the commitment and the
aggregate proof are, it returns a boolean. -/
theorem C11_Verify_errors (L : Bls12381 Scalar G1 G2 Gt) [DecidableEq Gt] (alpha : Scalar)
    (N : Int) (C A : G1) (positions : List Int) (values : List Scalar) (hN : 1 ≤ N) :
    ∃ pp, Setup L alpha N = some pp ∧
      (Verify L pp C positions values A = none ↔
        positions.length ≠ values.length ∨ ∃ s ∈ positions, s < 0 ∨ N ≤ s) ∧
      (positions.length = values.length → (∀ s ∈ positions, 0 ≤ s ∧ s < N) →
        ∃ b : Bool, Verify L pp C positions values A = some b) := by
  have hwf := srs_wellFormed L alpha N (by omega)
  have hgood : positions.length = values.length → (∀ s ∈ positions, 0 ≤ s ∧ s < N) →
      ∃ b : Bool, Verify L
        ({ N := N, P1 := srsP1 L alpha N.toNat, P2 := srsP2 L alpha N.toNat } : PP G1 G2)
        C positions values A = some b :=
    fun hlen hpos => ⟨_, Verify_eq L _ C A positions values hwf hN hlen hpos⟩
  refine ⟨_, by rw [Setup_eq, if_neg (by omega)], ⟨fun hnone => ?_, fun hbad => ?_⟩, hgood⟩
  · by_contra hcon
    rw [not_or] at hcon
    obtain ⟨hlen, hpos⟩ := hcon
    obtain ⟨b, hb⟩ := hgood (not_not.mp hlen) (fun s hs => by
      have h : ¬ (s < 0 ∨ N ≤ s) := fun hbad => hpos ⟨s, hs, hbad⟩
      omega)
    rw [hb] at hnone
    exact Option.noConfusion hnone
  · rcases hbad with hlen | hpos
    · unfold Verify
      rw [if_pos hlen]
    · exact Verify_none_of_position L _ C A positions values hwf hpos

/-- C11, in the small instance: `N = 2`, `alpha = 2`, commitment 12, aggregate proof 3,
position 1 with the value 7. -/
theorem C11_Verify_errors_witness :
    (1 : Int) ≤ 2 ∧
    ∃ pp, Setup toy (2 : ZMod 13) 2 = some pp ∧
      (Verify toy pp (12 : ZMod 13) [1] [(7 : ZMod 13)] (3 : ZMod 13) = none ↔
        [(1 : Int)].length ≠ [(7 : ZMod 13)].length ∨ ∃ s ∈ [(1 : Int)], s < 0 ∨ 2 ≤ s) ∧
      ([(1 : Int)].length = [(7 : ZMod 13)].length → (∀ s ∈ [(1 : Int)], 0 ≤ s ∧ s < 2) →
        ∃ b : Bool, Verify toy pp (12 : ZMod 13) [1] [(7 : ZMod 13)] (3 : ZMod 13) = some b) :=
  ⟨by decide, C11_Verify_errors toy 2 2 12 3 [1] [7] (by decide)⟩

/-! ## Missing length checks -/

theorem Commitment_loop_none (pp : PP G1 G2) :
    ∀ (ms : List Scalar) (i : Nat) (c : G1), pp.P1.length < i + ms.length → ms ≠ [] →
      Commitment.loop pp i ms c = none := by
  intro ms
  induction ms with
  | nil => intro i c _ h; exact absurd rfl h
  | cons m rest ih =>
    intro i c h _
    have hlen : (m :: rest).length = rest.length + 1 := rfl
    rw [hlen] at h
    rw [Commitment.loop]
    cases hp : pp.P1[i]? with
    | none => rfl
    | some p =>
      show Commitment.loop pp (i + 1) rest _ = none
      have hi : i < pp.P1.length := by
        by_contra hcon
        rw [List.getElem?_eq_none (by omega)] at hp
        exact Option.noConfusion hp
      apply ih (i + 1) _ (by omega)
      intro hnil
      rw [hnil] at h
      simp at h
      omega

/-- C12 as stated fails: on the parameters for `N = 1` a vector of length 2 is accepted,
no error being raised. -/
theorem C12_counterexample :
    Setup toy (2 : ZMod 13) 1 = some toyPP1 ∧ toyPP1.N < (toyVec.length : Int) ∧
    Commitment toyPP1 toyVec ≠ none := by
  refine ⟨?_, by decide, by decide⟩
  rw [Setup_eq, if_neg (by decide)]
  rfl

/-- C12 amended (commit length check): `Commitment` makes no check of the length `m` of
the vector against `N`.  On well-formed parameters it fails exactly when `m > 2N`, the
length of `P1`; for `N < m ≤ 2N` no error is raised (the loop then reads the unset entry
`P1[N]`, and nothing is said of the value returned); for `m ≤ N` it returns
`Σ_{j<m} values[j] * P1[j]`. -/
theorem C12_Commitment_length (pp : PP G1 G2) (values : List Scalar) (hpp : pp.WellFormed) :
    (Commitment pp values = none ↔ 2 * pp.N < (values.length : Int)) ∧
    (pp.N < (values.length : Int) → (values.length : Int) ≤ 2 * pp.N →
      Commitment pp values ≠ none) ∧
    ((values.length : Int) ≤ pp.N → Commitment pp values
      = some (∑ j ∈ Finset.range values.length, values.getD j 0 • pp.P1.getD j 0)) := by
  obtain ⟨h0, h1, h2⟩ := hpp
  have hsome : (values.length : Int) ≤ 2 * pp.N → Commitment pp values ≠ none := by
    intro h
    rw [Commitment_eq pp values (by omega)]
    exact fun hcon => Option.noConfusion hcon
  refine ⟨⟨fun hnone => ?_, fun hlong => ?_⟩, fun _ hle => hsome hle,
    fun hle => Commitment_eq pp values (by omega)⟩
  · by_contra hcon
    exact hsome (by omega) hnone
  · unfold Commitment
    apply Commitment_loop_none pp values 0 0 (by omega)
    intro hnil
    rw [hnil] at hlong
    simp at hlong
    omega

/-- C12 amended, on the parameters for `N = 1` and a vector of length 2. -/
theorem C12_Commitment_length_witness :
    toyPP1.WellFormed ∧ (toyPP1.N < (toyVec.length : Int)) ∧
    ((toyVec.length : Int) ≤ 2 * toyPP1.N) ∧
    ((Commitment toyPP1 toyVec = none ↔ 2 * toyPP1.N < (toyVec.length : Int)) ∧
    (toyPP1.N < (toyVec.length : Int) → (toyVec.length : Int) ≤ 2 * toyPP1.N →
      Commitment toyPP1 toyVec ≠ none) ∧
    ((toyVec.length : Int) ≤ toyPP1.N → Commitment toyPP1 toyVec
      = some (∑ j ∈ Finset.range toyVec.length, toyVec.getD j 0 • toyPP1.P1.getD j 0))) :=
  ⟨⟨by decide, by decide, by decide⟩, by decide, by decide,
    C12_Commitment_length toyPP1 toyVec ⟨by decide, by decide, by decide⟩⟩

/-- C13 as stated fails: `Setup(0)` returns parameters, with `N = 0` and empty `P1`
and `P2`. -/
theorem C13_counterexample :
    Setup toy (2 : ZMod 13) 0 = some { N := 0, P1 := [], P2 := [] } := by
  rw [Setup_eq, if_neg (by decide)]
  rfl

/-- C13 amended (setup argument check): `Setup(N)` fails for every `N < 0` and returns no
parameters in that case; `Setup(0)` does not fail and returns parameters with `N = 0` and
empty `P1` and `P2`. -/
theorem C13_Setup_argument (L : Bls12381 Scalar G1 G2 Gt) (alpha : Scalar) (N : Int) :
    (N < 0 → Setup L alpha N = none) ∧
    Setup L alpha 0 = some { N := 0, P1 := [], P2 := [] } := by
  constructor
  · intro hN
    rw [Setup_eq, if_pos hN]
  · rw [Setup_eq, if_neg (by decide)]
    rfl

/-- C13 amended, in the small instance at `N = -1`. -/
theorem C13_Setup_argument_witness :
    (-1 : Int) < 0 ∧ Setup toy (2 : ZMod 13) (-1) = none ∧
    Setup toy (2 : ZMod 13) 0 = some { N := 0, P1 := [], P2 := [] } :=
  ⟨by decide, (C13_Setup_argument toy 2 (-1)).1 (by decide),
    (C13_Setup_argument toy 2 (-1)).2⟩

theorem UpdateCommitment_loop_none (pp : PP G1 G2) (originMessage nowMessage : List Scalar) :
    ∀ (rest : List Int) (i : Nat) (sum : G1), nowMessage.length < i + rest.length →
      rest ≠ [] → UpdateCommitment.loop pp originMessage nowMessage i rest sum = none := by
  intro rest
  induction rest with
  | nil => intro i sum _ h; exact absurd rfl h
  | cons s rest ih =>
    intro i sum h _
    have hlen : (s :: rest).length = rest.length + 1 := rfl
    rw [hlen] at h
    rw [UpdateCommitment.loop]
    cases hn : nowMessage[i]? with
    | none => rfl
    | some n =>
      cases ho : originMessage[i]? with
      | none => rfl
      | some o =>
        cases hp : index? pp.P1 s with
        | none => rfl
        | some p =>
          show UpdateCommitment.loop pp originMessage nowMessage (i + 1) rest _ = none
          have hi : i < nowMessage.length := by
            by_contra hcon
            rw [List.getElem?_eq_none (by omega)] at hn
            exact Option.noConfusion hn
          apply ih (i + 1) _ (by omega)
          intro hnil
          rw [hnil] at h
          simp at h
          omega

/-- C14 as stated fails: with one old value, one new value and no position the three
sequences do not have the same length, and the commitment is returned unchanged. -/
theorem C14_counterexample :
    [(7 : ZMod 13)].length ≠ ([] : List Int).length ∧
    UpdateCommitment toy toyPP (12 : ZMod 13) [7] [9] [] = some 12 := by
  decide

/-- C14 amended (update length check): `UpdateCommitment` fails when `oldValues` and
`newValues` have different lengths, and when `positions` is longer than `newValues`.  When
the two value sequences have the same length, `positions` is not longer and every position
is an index of `P1`, no error is raised; if moreover no position is `N`, the index of the
unset entry of `P1`, it returns
`C + Σ_{t < len(positions)} (newValues[t] - oldValues[t]) * P1[positions[t]]`. -/
theorem C14_Update_length (L : Bls12381 Scalar G1 G2 Gt) (pp : PP G1 G2) (c : G1)
    (oldValues newValues : List Scalar) (positions : List Int) :
    (oldValues.length ≠ newValues.length →
      UpdateCommitment L pp c oldValues newValues positions = none) ∧
    (newValues.length < positions.length →
      UpdateCommitment L pp c oldValues newValues positions = none) ∧
    (oldValues.length = newValues.length → positions.length ≤ newValues.length →
      (∀ s ∈ positions, 0 ≤ s ∧ s < pp.P1.length) →
      UpdateCommitment L pp c oldValues newValues positions ≠ none) ∧
    (oldValues.length = newValues.length → positions.length ≤ newValues.length →
      (∀ s ∈ positions, 0 ≤ s ∧ s < pp.P1.length) → (∀ s ∈ positions, s ≠ pp.N) →
      UpdateCommitment L pp c oldValues newValues positions
        = some (c + ∑ t ∈ Finset.range positions.length,
            (newValues.getD t 0 - oldValues.getD t 0)
              • pp.P1.getD (positions.getD t 0).toNat 0)) := by
  have hval : oldValues.length = newValues.length → positions.length ≤ newValues.length →
      (∀ s ∈ positions, 0 ≤ s ∧ s < pp.P1.length) →
      UpdateCommitment L pp c oldValues newValues positions
        = some (c + ∑ t ∈ Finset.range positions.length,
            (newValues.getD t 0 - oldValues.getD t 0)
              • pp.P1.getD (positions.getD t 0).toNat 0) := by
    intro heq hle hs
    unfold UpdateCommitment
    rw [if_neg (by omega), L.G1SetBytes_Bytes c,
      UpdateCommitment_loop_spec pp oldValues newValues positions 0 0 (by omega) (by omega) hs]
    simp only [Option.getD_some, zero_add, Nat.zero_add]
  refine ⟨fun hne => ?_, fun hlong => ?_, fun heq hle hs => ?_,
    fun heq hle hs _ => hval heq hle hs⟩
  · unfold UpdateCommitment
    rw [if_pos hne]
  · unfold UpdateCommitment
    by_cases hne : oldValues.length ≠ newValues.length
    · rw [if_pos hne]
    · rw [if_neg hne, UpdateCommitment_loop_none pp oldValues newValues positions 0 0
        (by omega) (by intro hnil; rw [hnil] at hlong; simp at hlong)]
  · rw [hval heq hle hs]
    exact fun hcon => Option.noConfusion hcon

theorem toy_positions_off_diagonal : ∀ s ∈ [(1 : Int)], s ≠ toyPP.N := by
  decide

/-- C14 amended, in the small instance: two old and two new values, one position. -/
theorem C14_Update_length_witness :
    ([(5 : ZMod 13), 7].length = [(6 : ZMod 13), 9].length) ∧
    ([(1 : Int)].length ≤ [(6 : ZMod 13), 9].length) ∧
    (∀ s ∈ [(1 : Int)], 0 ≤ s ∧ s < (toyPP.P1.length : Int)) ∧
    (∀ s ∈ [(1 : Int)], s ≠ toyPP.N) ∧
    UpdateCommitment toy toyPP (12 : ZMod 13) [5, 7] [6, 9] [1]
      = some ((12 : ZMod 13) + ∑ t ∈ Finset.range [(1 : Int)].length,
          ([(6 : ZMod 13), 9].getD t 0 - [(5 : ZMod 13), 7].getD t 0)
            • toyPP.P1.getD ([(1 : Int)].getD t 0).toNat 0) :=
  ⟨rfl, by decide, by decide, toy_positions_off_diagonal,
    (C14_Update_length toy toyPP 12 [5, 7] [6, 9] [1]).2.2.2 rfl (by decide) (by decide)
      toy_positions_off_diagonal⟩

/-! ## The indices read by Proof -/

theorem Proof_reads_mem (N i : Int) :
    ∀ (ms : List Scalar) (j : Nat) (k : Int),
      k ∈ Proof.reads N i j ms ↔
        ∃ t : Nat, t < ms.length ∧ ((j + t : Nat) : Int) ≠ i ∧ k = N - i + ((j + t : Nat) : Int) := by
  intro ms
  induction ms with
  | nil =>
    intro j k
    simp [Proof.reads]
  | cons m rest ih =>
    intro j k
    have hlen : (m :: rest).length = rest.length + 1 := rfl
    rw [Proof.reads]
    constructor
    · intro hk
      by_cases hj : (j : Int) = i
      · rw [if_pos hj] at hk
        obtain ⟨t, ht, hne, hkt⟩ := (ih (j + 1) k).mp hk
        exact ⟨t + 1, by omega, by rw [← Nat.add_assoc, Nat.add_right_comm]; exact hne,
          by rw [← Nat.add_assoc, Nat.add_right_comm]; exact hkt⟩
      · rw [if_neg hj] at hk
        rcases List.mem_cons.mp hk with h0 | hrest
        · exact ⟨0, by omega, by simpa using hj, by simpa using h0⟩
        · obtain ⟨t, ht, hne, hkt⟩ := (ih (j + 1) k).mp hrest
          exact ⟨t + 1, by omega, by rw [← Nat.add_assoc, Nat.add_right_comm]; exact hne,
            by rw [← Nat.add_assoc, Nat.add_right_comm]; exact hkt⟩
    · rintro ⟨t, ht, hne, hkt⟩
      have hrec : 0 < t → k ∈ Proof.reads N i (j + 1) rest := by
        intro hpos
        apply (ih (j + 1) k).mpr
        refine ⟨t - 1, by omega, ?_, ?_⟩
        · have e : j + 1 + (t - 1) = j + t := by omega
          rw [e]; exact hne
        · have e : j + 1 + (t - 1) = j + t := by omega
          rw [e]; exact hkt
      by_cases hj : (j : Int) = i
      · rw [if_pos hj]
        apply hrec
        by_contra h0
        have ht0 : t = 0 := by omega
        subst ht0
        exact hne (by simpa using hj)
      · rw [if_neg hj]
        by_cases h0 : t = 0
        · subst h0
          exact List.mem_cons.mpr (Or.inl (by simpa using hkt))
        · exact List.mem_cons.mpr (Or.inr (hrec (by omega)))

/-- The loop of `Proof` depends on `P1` only through the entries listed by
`Proof.reads`. -/
theorem Proof_loop_congr (pp pp2 : PP G1 G2) (i : Int) (hN : pp2.N = pp.N) :
    ∀ (ms : List Scalar) (j : Nat) (sum : G1),
      (∀ k ∈ Proof.reads pp.N i j ms, index? pp2.P1 k = index? pp.P1 k) →
      Proof.loop pp2 i j ms sum = Proof.loop pp i j ms sum := by
  intro ms
  induction ms with
  | nil => intro j sum _; rfl
  | cons m rest ih =>
    intro j sum h
    rw [Proof.reads] at h
    rw [Proof.loop, Proof.loop]
    by_cases hj : (j : Int) = i
    · rw [if_pos hj] at h
      rw [if_pos hj, if_pos hj]
      exact ih (j + 1) sum h
    · rw [if_neg hj] at h
      rw [if_neg hj, if_neg hj, hN, h _ (List.mem_cons_self _ _)]
      cases index? pp.P1 (pp.N - i + j) with
      | none => rfl
      | some q => exact ih (j + 1) _ (fun k hk => h k (List.mem_cons_of_mem _ hk))

theorem Proof_loop_none (pp : PP G1 G2) (i : Int) :
    ∀ (ms : List Scalar) (j : Nat) (sum : G1),
      (∃ k ∈ Proof.reads pp.N i j ms, index? pp.P1 k = none) →
      Proof.loop pp i j ms sum = none := by
  intro ms
  induction ms with
  | nil =>
    intro j sum h
    obtain ⟨k, hk, _⟩ := h
    exact absurd hk (List.not_mem_nil k)
  | cons m rest ih =>
    intro j sum h
    rw [Proof.reads] at h
    rw [Proof.loop]
    by_cases hj : (j : Int) = i
    · rw [if_pos hj] at h
      rw [if_pos hj]
      exact ih (j + 1) sum h
    · rw [if_neg hj] at h
      rw [if_neg hj]
      cases hq : index? pp.P1 (pp.N - i + j) with
      | none => rfl
      | some q =>
        show Proof.loop pp i (j + 1) rest _ = none
        apply ih
        obtain ⟨k, hk, hnone⟩ := h
        rcases List.mem_cons.mp hk with heq | hmem
        · subst heq
          rw [hq] at hnone
          exact Option.noConfusion hnone
        · exact ⟨k, hmem, hnone⟩

theorem Proof_reads_zero (N i : Int) (ms : List Scalar) (k : Int) :
    k ∈ Proof.reads N i 0 ms ↔
      ∃ j : Nat, j < ms.length ∧ (j : Int) ≠ i ∧ k = N - i + (j : Int) := by
  rw [Proof_reads_mem]
  simp only [Nat.zero_add]

/-- The result of `Proof` does not depend on the entry `P1[N]`. -/
theorem Proof_set_diagonal (pp : PP G1 G2) (message : List Scalar) (i : Int) (x : G1)
    (h0 : 0 ≤ pp.N) :
    Proof { N := pp.N, P1 := pp.P1.set pp.N.toNat x, P2 := pp.P2 } message i
      = Proof pp message i := by
  unfold Proof
  by_cases hi : i < 0 ∨ i ≥ (message.length : Int)
  · rw [if_pos hi, if_pos hi]
  · rw [if_neg hi, if_neg hi]
    refine Proof_loop_congr pp { N := pp.N, P1 := pp.P1.set pp.N.toNat x, P2 := pp.P2 } i rfl
      message 0 0 ?_
    intro k hk
    obtain ⟨j, _, hne, hkj⟩ := (Proof_reads_zero pp.N i message k).mp hk
    show index? (pp.P1.set pp.N.toNat x) k = index? pp.P1 k
    unfold index?
    by_cases hk0 : k < 0
    · rw [if_pos hk0, if_pos hk0]
    · rw [if_neg hk0, if_neg hk0, List.getElem?_set_ne (by omega)]

/-- C15 (opening index safety): on well-formed parameters, for a vector of length `m ≤ N`
and `i` in `[0, m)` (so that `N ≥ 1`), the indices `Proof` reads from `P1` are the
`N - i + j` with `j` in `[0, m)`, `j ≠ i`; each of them lies in `[0, 2N-1]` and is not `N`.
So `Proof` returns a value (no index is out of bounds) and its result is the same whatever
the entry `P1[N]` holds. -/
theorem C15_Proof_index_safety (pp : PP G1 G2) (values : List Scalar) (i : Int) (x : G1)
    (hpp : pp.WellFormed) (hm : (values.length : Int) ≤ pp.N)
    (hi0 : 0 ≤ i) (hi : i < values.length) :
    (∀ k, k ∈ Proof.reads pp.N i 0 values ↔
      ∃ j : Nat, j < values.length ∧ (j : Int) ≠ i ∧ k = pp.N - i + (j : Int)) ∧
    (∀ j : Nat, j < values.length → (j : Int) ≠ i →
      0 ≤ pp.N - i + (j : Int) ∧ pp.N - i + (j : Int) ≤ 2 * pp.N - 1
        ∧ pp.N - i + (j : Int) ≠ pp.N) ∧
    (∃ π, Proof pp values i = some π) ∧
    Proof { N := pp.N, P1 := pp.P1.set pp.N.toNat x, P2 := pp.P2 } values i
      = Proof pp values i := by
  obtain ⟨h0, h1, h2⟩ := hpp
  have hs := Proof_eq pp values i hm (by omega)
  rw [if_neg (by omega)] at hs
  exact ⟨Proof_reads_zero pp.N i values, fun j hj hne => ⟨by omega, by omega, by omega⟩,
    ⟨_, hs⟩, Proof_set_diagonal pp values i x h0⟩

/-- C15, on the parameters and the vector of the small instance, at index 1. -/
theorem C15_Proof_index_safety_witness :
    toyPP.WellFormed ∧ (1 : Int) ≤ toyPP.N ∧ ((toyVec.length : Int) ≤ toyPP.N) ∧
    (0 : Int) ≤ 1 ∧ ((1 : Int) < toyVec.length) ∧
    ((∀ k, k ∈ Proof.reads toyPP.N 1 0 toyVec ↔
      ∃ j : Nat, j < toyVec.length ∧ (j : Int) ≠ 1 ∧ k = toyPP.N - 1 + (j : Int)) ∧
    (∀ j : Nat, j < toyVec.length → (j : Int) ≠ 1 →
      0 ≤ toyPP.N - 1 + (j : Int) ∧ toyPP.N - 1 + (j : Int) ≤ 2 * toyPP.N - 1
        ∧ toyPP.N - 1 + (j : Int) ≠ toyPP.N) ∧
    (∃ π, Proof toyPP toyVec 1 = some π) ∧
    Proof { N := toyPP.N, P1 := toyPP.P1.set toyPP.N.toNat (11 : ZMod 13), P2 := toyPP.P2 }
        toyVec 1
      = Proof toyPP toyVec 1) :=
  ⟨⟨by decide, by decide, by decide⟩, by decide, by decide, by decide, by decide,
    C15_Proof_index_safety toyPP toyVec 1 11 ⟨by decide, by decide, by decide⟩ (by decide)
      (by decide) (by decide)⟩

/-- C16 as stated fails: on the parameters for `N = 1` the vector of length 2 is opened
at index 1 without error. -/
theorem C16_counterexample :
    Setup toy (2 : ZMod 13) 1 = some toyPP1 ∧ toyPP1.N < (toyVec.length : Int) ∧
    Proof toyPP1 toyVec 1 = some 10 := by
  refine ⟨?_, by decide, by decide⟩
  rw [Setup_eq, if_neg (by decide)]
  rfl

/-- C16 amended (open length precondition): `Proof` makes no check of the length `m` of the
vector against `N`.  On well-formed parameters with `N ≥ 1` and a vector of length `m > N`
it fails exactly for the indices `i < m - N` and `i > N`, hence for every index when
`m > 2N`; for `m - N ≤ i ≤ N` it returns `Σ_{j<m, j≠i} values[j] * P1[N - i + j]`. -/
theorem C16_Proof_long_vector (pp : PP G1 G2) (values : List Scalar) (i : Int)
    (hpp : pp.WellFormed) (hN : 1 ≤ pp.N) (hm : pp.N < (values.length : Int)) :
    (Proof pp values i = none ↔ i < (values.length : Int) - pp.N ∨ pp.N < i) ∧
    ((values.length : Int) - pp.N ≤ i → i ≤ pp.N →
      Proof pp values i
        = some (∑ j ∈ (Finset.range values.length).filter (fun j : Nat => (j : Int) ≠ i),
            values.getD j 0 • pp.P1.getD (pp.N - i + j).toNat 0)) ∧
    (2 * pp.N < (values.length : Int) → Proof pp values i = none) := by
  obtain ⟨h0, h1, h2⟩ := hpp
  have hsome : (values.length : Int) - pp.N ≤ i → i ≤ pp.N →
      Proof pp values i
        = some (∑ j ∈ (Finset.range values.length).filter (fun j : Nat => (j : Int) ≠ i),
            values.getD j 0 • pp.P1.getD (pp.N - i + j).toNat 0) := by
    intro hlo hhi
    unfold Proof
    rw [if_neg (by omega),
      Proof_loop_spec pp i values 0 0 (by push_cast; omega) (by push_cast; omega),
      zero_add, Finset.sum_filter]
    congr 1
    apply Finset.sum_congr rfl
    intro t _
    simp only [Nat.zero_add, ne_eq, ite_not]
  have hnone : i < (values.length : Int) - pp.N ∨ pp.N < i → Proof pp values i = none := by
    intro hbad
    unfold Proof
    by_cases hi : i < 0 ∨ i ≥ (values.length : Int)
    · rw [if_pos hi]
    · rw [if_neg hi]
      apply Proof_loop_none
      rcases hbad with hlow | hhigh
      · -- the last loop index reads past the end of `P1`
        refine ⟨pp.N - i + ((values.length - 1 : Nat) : Int),
          (Proof_reads_zero pp.N i values _).mpr ⟨values.length - 1, by omega, by omega, rfl⟩,
          (index?_eq_none_iff pp.P1 _).mpr (by omega)⟩
      · -- the first loop index reads before the start of `P1`
        refine ⟨pp.N - i + ((0 : Nat) : Int),
          (Proof_reads_zero pp.N i values _).mpr ⟨0, by omega, by omega, rfl⟩,
          (index?_eq_none_iff pp.P1 _).mpr (by omega)⟩
  refine ⟨⟨fun h => ?_, hnone⟩, hsome, fun hlong => hnone (by omega)⟩
  by_contra hcon
  rw [hsome (by omega) (by omega)] at h
  exact Option.noConfusion h

/-- C16 amended, on the parameters for `N = 1` and the vector of length 2, at index 1. -/
theorem C16_Proof_long_vector_witness :
    toyPP1.WellFormed ∧ (1 : Int) ≤ toyPP1.N ∧ (toyPP1.N < (toyVec.length : Int)) ∧
    ((toyVec.length : Int) - toyPP1.N ≤ 1) ∧ ((1 : Int) ≤ toyPP1.N) ∧
    ((Proof toyPP1 toyVec 1 = none ↔ (1 : Int) < (toyVec.length : Int) - toyPP1.N ∨ toyPP1.N < 1) ∧
    ((toyVec.length : Int) - toyPP1.N ≤ 1 → (1 : Int) ≤ toyPP1.N →
      Proof toyPP1 toyVec 1
        = some (∑ j ∈ (Finset.range toyVec.length).filter (fun j : Nat => (j : Int) ≠ 1),
            toyVec.getD j 0 • toyPP1.P1.getD (toyPP1.N - 1 + j).toNat 0)) ∧
    (2 * toyPP1.N < (toyVec.length : Int) → Proof toyPP1 toyVec 1 = none)) :=
  ⟨⟨by decide, by decide, by decide⟩, by decide, by decide, by decide, by decide,
    C16_Proof_long_vector toyPP1 toyVec 1 ⟨by decide, by decide, by decide⟩ (by decide)
      (by decide)⟩

/-! ## The bytes hashed for a challenge -/

theorem le64_length (s : Int) : (le64 s).length = 8 := by
  simp [le64]

theorem mod_pow_eq_of_digits (n n2 : Nat) :
    ∀ k : Nat, (∀ j : Nat, j < k → n / 256 ^ j % 256 = n2 / 256 ^ j % 256) →
      n % 256 ^ k = n2 % 256 ^ k := by
  intro k
  induction k with
  | zero => intro _; simp [Nat.mod_one]
  | succ k ih =>
    intro h
    rw [Nat.mod_pow_succ, Nat.mod_pow_succ, ih (fun j hj => h j (by omega)), h k (by omega)]

theorem le64_digits (s s2 : Int) (h : le64 s = le64 s2) :
    ∀ j : Nat, j < 8 →
      (s % 2 ^ 64).toNat / 256 ^ j % 256 = (s2 % 2 ^ 64).toNat / 256 ^ j % 256 := by
  intro j hj
  unfold le64 at h
  have hmem := List.map_inj_left.mp h j (List.mem_range.mpr hj)
  have hval := congrArg Fin.val hmem
  have e : ∀ a : Nat, ((Fin.ofNat (a % 256) : Byte) : Nat) = a % 256 := by
    intro a
    show a % 256 % 256 = a % 256
    exact Nat.mod_mod _ _
  rw [e, e] at hval
  exact hval

/-- The eight-byte encoding is injective on the range of `int64`. -/
theorem le64_injective (s s2 : Int) (h1 : Int64Range s) (h2 : Int64Range s2)
    (h : le64 s = le64 s2) : s = s2 := by
  obtain ⟨h1a, h1b⟩ := h1
  obtain ⟨h2a, h2b⟩ := h2
  have hmod := mod_pow_eq_of_digits _ _ 8 (le64_digits s s2 h)
  have hb : ∀ x : Int, (x % 2 ^ 64).toNat < 256 ^ 8 := by
    intro x
    have := Int.emod_lt_of_pos x (show (0 : Int) < 2 ^ 64 by norm_num)
    have := Int.emod_nonneg x (show (2 : Int) ^ 64 ≠ 0 by norm_num)
    omega
  rw [Nat.mod_eq_of_lt (hb s), Nat.mod_eq_of_lt (hb s2)] at hmod
  have hs : s % 2 ^ 64 = s2 % 2 ^ 64 := by
    have a1 := Int.emod_nonneg s (show (2 : Int) ^ 64 ≠ 0 by norm_num)
    have a2 := Int.emod_nonneg s2 (show (2 : Int) ^ 64 ≠ 0 by norm_num)
    omega
  norm_num at hs h1a h1b h2a h2b
  omega

theorem length_flatten_map {α : Type} (f : α → List Byte) (n : Nat)
    (hlen : ∀ a, (f a).length = n) :
    ∀ l : List α, ((l.map f).flatten).length = l.length * n := by
  intro l
  induction l with
  | nil => simp
  | cons a rest ih =>
    rw [List.map_cons, List.flatten_cons, List.length_append, ih, hlen, List.length_cons]
    ring

theorem flatten_map_inj {α : Type} (f : α → List Byte) (n : Nat)
    (hlen : ∀ a, (f a).length = n) :
    ∀ l l2 : List α, l.length = l2.length →
      (∀ a ∈ l, ∀ b ∈ l2, f a = f b → a = b) →
      (l.map f).flatten = (l2.map f).flatten → l = l2 := by
  intro l
  induction l with
  | nil =>
    intro l2 hl _ _
    exact (List.length_eq_zero.mp hl.symm).symm
  | cons a rest ih =>
    intro l2 hl hinj h
    cases l2 with
    | nil => exact absurd hl (by simp)
    | cons b rest2 =>
      rw [List.map_cons, List.map_cons, List.flatten_cons, List.flatten_cons] at h
      obtain ⟨hab, hrest⟩ := List.append_inj h (by rw [hlen, hlen])
      have e1 : a = b := hinj a (List.mem_cons_self _ _) b (List.mem_cons_self _ _) hab
      have e2 : rest = rest2 := ih rest2 (by simpa using hl)
        (fun x hx y hy => hinj x (List.mem_cons_of_mem _ hx) y (List.mem_cons_of_mem _ hy))
        hrest
      rw [e1, e2]

/-- The bytes written to the hash, as one concatenation. -/
theorem tiInput_eq (L : Bls12381 Scalar G1 G2 Gt) (c : G1) (sets : List Int)
    (message : List Scalar) (s : Int) :
    tiInput L c sets message s
      = le64 s ++ (L.G1Bytes c ++ ((sets.map le64).flatten
          ++ (message.map L.ScalarMarshalBinary).flatten)) := by
  unfold tiInput
  simp only [foldl_append_eq_flatten, List.nil_append, List.append_assoc]

/-- C17 (challenge context binding): the challenge of `Aggregate` and of `Verify` is the
hash-to-scalar of the bytes `tiInput`, and with fixed-size encodings of the commitment and
of the scalars, the latter injective, these bytes determine the slot position, the
commitment, the positions and the values (positions in the range of `int64`, as many
values as positions). -/
theorem C17_challenge_context_binding (L : Bls12381 Scalar G1 G2 Gt) (cLen sLen : Nat)
    (s s2 : Int) (c c2 : G1) (sets sets2 : List Int) (message message2 : List Scalar)
    (hc : ∀ x : G1, (L.G1Bytes x).length = cLen)
    (hsl : ∀ x : Scalar, (L.ScalarMarshalBinary x).length = sLen)
    (hsi : Function.Injective L.ScalarMarshalBinary)
    (hs : Int64Range s) (hs2 : Int64Range s2)
    (hsets : ∀ p ∈ sets, Int64Range p) (hsets2 : ∀ p ∈ sets2, Int64Range p)
    (hk : sets.length = message.length) (hk2 : sets2.length = message2.length) :
    tiHash L c sets message s = L.ScalarSetBytes (L.sha256 (tiInput L c sets message s)) ∧
    (tiInput L c sets message s = tiInput L c2 sets2 message2 s2 →
      s = s2 ∧ c = c2 ∧ sets = sets2 ∧ message = message2) := by
  refine ⟨rfl, fun h => ?_⟩
  rw [tiInput_eq, tiInput_eq] at h
  obtain ⟨h1, h⟩ := List.append_inj h (by rw [le64_length, le64_length])
  obtain ⟨h2, h⟩ := List.append_inj h (by rw [hc, hc])
  have hcc : c = c2 := by
    have e := L.G1SetBytes_Bytes c
    rw [h2, L.G1SetBytes_Bytes c2] at e
    exact (Option.some.inj e).symm
  have hlen := congrArg List.length h
  rw [List.length_append, List.length_append, length_flatten_map le64 8 le64_length,
    length_flatten_map le64 8 le64_length,
    length_flatten_map L.ScalarMarshalBinary sLen hsl,
    length_flatten_map L.ScalarMarshalBinary sLen hsl, ← hk, ← hk2, ← Nat.mul_add,
    ← Nat.mul_add] at hlen
  have hkk : sets.length = sets2.length :=
    Nat.eq_of_mul_eq_mul_right (by omega : 0 < 8 + sLen) hlen
  obtain ⟨h3, h4⟩ := List.append_inj h (by
    rw [length_flatten_map le64 8 le64_length, length_flatten_map le64 8 le64_length, hkk])
  refine ⟨le64_injective s s2 hs hs2 h1, hcc, ?_, ?_⟩
  · exact flatten_map_inj le64 8 le64_length sets sets2 hkk
      (fun a ha b hb hab => le64_injective a b (hsets a ha) (hsets2 b hb) hab) h3
  · exact flatten_map_inj L.ScalarMarshalBinary sLen hsl message message2 (by omega)
      (fun a _ b _ hab => hsi hab) h4

theorem toy_int64_one : Int64Range 1 := by
  constructor <;> norm_num

theorem toy_int64_list : ∀ p ∈ [(1 : Int)], Int64Range p := by
  intro p hp
  rw [List.mem_singleton] at hp
  subst hp
  exact toy_int64_one

theorem toy_marshal_injective : Function.Injective toy.ScalarMarshalBinary := by
  intro a b
  revert a b
  decide

/-- C17, in the small instance, where a group element and a scalar are encoded in one
byte each. -/
theorem C17_challenge_context_binding_witness :
    (∀ x : ZMod 13, (toy.G1Bytes x).length = 1) ∧
    (∀ x : ZMod 13, (toy.ScalarMarshalBinary x).length = 1) ∧
    Function.Injective toy.ScalarMarshalBinary ∧ Int64Range 1 ∧
    (∀ p ∈ [(1 : Int)], Int64Range p) ∧ [(1 : Int)].length = [(7 : ZMod 13)].length ∧
    (tiHash toy (12 : ZMod 13) [1] [(7 : ZMod 13)] 1
        = toy.ScalarSetBytes (toy.sha256 (tiInput toy (12 : ZMod 13) [1] [(7 : ZMod 13)] 1)) ∧
    (tiInput toy (12 : ZMod 13) [1] [(7 : ZMod 13)] 1
        = tiInput toy (12 : ZMod 13) [1] [(7 : ZMod 13)] 1 →
      (1 : Int) = 1 ∧ (12 : ZMod 13) = 12 ∧ [(1 : Int)] = [1]
        ∧ [(7 : ZMod 13)] = [7])) :=
  ⟨fun _ => rfl, fun _ => rfl, toy_marshal_injective, toy_int64_one, toy_int64_list, rfl,
    C17_challenge_context_binding toy 1 1 1 1 12 12 [1] [1] [7] [7] (fun _ => rfl)
      (fun _ => rfl) toy_marshal_injective toy_int64_one toy_int64_one toy_int64_list
      toy_int64_list rfl rfl⟩

/-! ## What the opening proof and the commitment do not depend on -/

/-- C18 (the opening proof ignores the opened value): on well-formed parameters, for two
vectors of the same length `m ≤ N` that agree at every position other than `i`, with `i`
in `[0, m)`, `Proof(v, i)` and `Proof(v2, i)` return the same group element. -/
theorem C18_Proof_ignores_opened_value (pp : PP G1 G2) (v v2 : List Scalar) (i : Int)
    (hpp : pp.WellFormed) (hm : (v.length : Int) ≤ pp.N) (hlen : v2.length = v.length)
    (hi0 : 0 ≤ i) (hi : i < v.length)
    (hagree : ∀ j : Nat, j < v.length → (j : Int) ≠ i → v2.getD j 0 = v.getD j 0) :
    ∃ π : G1, Proof pp v i = some π ∧ Proof pp v2 i = some π := by
  obtain ⟨h0, h1, h2⟩ := hpp
  have hs1 := Proof_eq pp v i hm (by omega)
  rw [if_neg (by omega)] at hs1
  refine ⟨_, hs1, ?_⟩
  rw [Proof_eq pp v2 i (by omega) (by omega), if_neg (by omega), hlen]
  congr 1
  apply Finset.sum_congr rfl
  intro j hj
  rw [Finset.mem_filter, Finset.mem_range] at hj
  rw [hagree j hj.1 hj.2]

theorem toy_agree : ∀ j : Nat, j < toyVec.length → (j : Int) ≠ 1 →
    [(5 : ZMod 13), 9].getD j 0 = toyVec.getD j 0 := by
  intro j hj hne
  have h2 : j < 2 := hj
  interval_cases j
  · decide
  · exact absurd rfl hne

/-- C18, in the small instance: the vectors `[5, 7]` and `[5, 9]` opened at index 1. -/
theorem C18_Proof_ignores_opened_value_witness :
    toyPP.WellFormed ∧ ((toyVec.length : Int) ≤ toyPP.N) ∧
    ([(5 : ZMod 13), 9].length = toyVec.length) ∧ (0 : Int) ≤ 1 ∧
    ((1 : Int) < toyVec.length) ∧
    (∀ j : Nat, j < toyVec.length → (j : Int) ≠ 1 →
      [(5 : ZMod 13), 9].getD j 0 = toyVec.getD j 0) ∧
    ∃ π : ZMod 13, Proof toyPP toyVec 1 = some π ∧ Proof toyPP [(5 : ZMod 13), 9] 1 = some π :=
  ⟨⟨by decide, by decide, by decide⟩, by decide, rfl, by decide, by decide, toy_agree,
    C18_Proof_ignores_opened_value toyPP toyVec [5, 9] 1 ⟨by decide, by decide, by decide⟩
      (by decide) rfl (by decide) (by decide) toy_agree⟩

theorem getD_append_zeros (v : List Scalar) (z j : Nat) :
    (v ++ List.replicate z (0 : Scalar)).getD j 0 = v.getD j 0 := by
  by_cases hj : j < v.length
  · exact List.getD_append v _ 0 j hj
  · rw [List.getD_append_right v _ 0 j (by omega), List.getD_eq_default v 0 (by omega)]
    by_cases hz : j - v.length < z
    · rw [List.getD_eq_getElem _ 0 (by simpa using hz), List.getElem_replicate]
    · exact List.getD_eq_default _ 0 (by simpa using hz)

/-- C19 (the commitment does not bind the vector length): on well-formed parameters, for a
vector `v` and `z` appended zero scalars with `len(v) + z ≤ N`, `Commitment(v ++ [0,...,0])`
and `Commitment(v)` return the same group element. -/
theorem C19_Commitment_appended_zeros (pp : PP G1 G2) (v : List Scalar) (z : Nat)
    (hpp : pp.WellFormed) (hm : (v.length : Int) + z ≤ pp.N) :
    ∃ c : G1, Commitment pp v = some c ∧
      Commitment pp (v ++ List.replicate z (0 : Scalar)) = some c := by
  obtain ⟨h0, h1, h2⟩ := hpp
  have hl : (v ++ List.replicate z (0 : Scalar)).length = v.length + z := by simp
  refine ⟨_, Commitment_eq pp v (by omega), ?_⟩
  rw [Commitment_eq pp _ (by omega), hl]
  congr 1
  symm
  rw [Finset.sum_subset (Finset.range_subset.mpr (Nat.le_add_right v.length z))]
  · apply Finset.sum_congr rfl
    intro j _
    rw [getD_append_zeros]
  · intro j _ hj
    rw [Finset.mem_range] at hj
    rw [List.getD_eq_default v 0 (by omega), zero_smul]

/-- C19, in the small instance: the vector `[5]` and the vector `[5, 0]` for `N = 2`. -/
theorem C19_Commitment_appended_zeros_witness :
    toyPP.WellFormed ∧ (([(5 : ZMod 13)].length : Int) + (1 : Nat) ≤ toyPP.N) ∧
    ∃ c : ZMod 13, Commitment toyPP [(5 : ZMod 13)] = some c ∧
      Commitment toyPP ([(5 : ZMod 13)] ++ List.replicate 1 (0 : ZMod 13)) = some c :=
  ⟨⟨by decide, by decide, by decide⟩, by decide,
    C19_Commitment_appended_zeros toyPP [5] 1 ⟨by decide, by decide, by decide⟩ (by decide)⟩

/-! ## The empty claim -/

/-- C20 (empty claim): on well-formed parameters with `N ≥ 1` and for every group-1
element `C`, verifying the aggregate of no proofs against no positions and no values
returns `true`; for any `A`, `Verify(C, [], [], A)` returns a boolean that is `true`
exactly when `e(A, g2)` is the identity of the target group. -/
theorem C20_empty_claim (L : Bls12381 Scalar G1 G2 Gt) [DecidableEq Gt] (pp : PP G1 G2)
    (C A : G1) (hpp : pp.WellFormed) (hN : 1 ≤ pp.N) :
    (Aggregate L C [] [] []).bind (fun A0 => Verify L pp C [] [] A0) = some true ∧
    ∃ b : Bool, Verify L pp C [] [] A = some b ∧
      (b = true ↔ L.Pair A L.G2Generator = 0) := by
  have hv : ∀ A0 : G1, Verify L pp C [] [] A0
      = some (decide (0 = L.Pair A0 L.G2Generator)) := by
    intro A0
    rw [Verify_eq L pp C A0 [] [] hpp hN rfl (fun s hs => absurd hs (List.not_mem_nil s))]
    simp only [List.length_nil, Finset.sum_range_zero, Pair_zero_right, add_zero]
  constructor
  · rw [Aggregate_eq L C [] [] [] rfl rfl, Option.some_bind, hv]
    simp only [List.length_nil, Finset.sum_range_zero, Pair_zero_left, decide_True]
  · refine ⟨_, hv A, ?_⟩
    rw [decide_eq_true_iff]
    exact eq_comm

/-- C20, on the parameters of the small instance, for the element 12 and the proof 3. -/
theorem C20_empty_claim_witness :
    toyPP.WellFormed ∧ (1 : Int) ≤ toyPP.N ∧
    ((Aggregate toy (12 : ZMod 13) [] [] []).bind
        (fun A0 => Verify toy toyPP (12 : ZMod 13) [] [] A0) = some true ∧
    ∃ b : Bool, Verify toy toyPP (12 : ZMod 13) [] [] (3 : ZMod 13) = some b ∧
      (b = true ↔ toy.Pair (3 : ZMod 13) toy.G2Generator = 0)) :=
  ⟨⟨by decide, by decide, by decide⟩, by decide,
    C20_empty_claim toy toyPP 12 3 ⟨by decide, by decide, by decide⟩ (by decide)⟩

end Pointproof
